import Mathlib

/-!
# TrocZen — formal model of the ORACLE / DRAGON core

Shallow embedding, in Lean 4, of the parts of the `papiche/troczen`
repository that the specification claims talk about:

* `src/api/oracle/permit_manager.py` — permit-id string logic;
* `src/api/oracle/oracle_service.py` — attestation processing and tag parsing;
* `src/api/dragon/du_engine.py` — reciprocal N1/N2 social graph;
* `src/api/dragon/circuit_indexer.py` — inter-market rates and bond parsing;
* `src/api/dragon/params_engine.py` — C², α and optimal-TTL computations;
* `src/api/nostr_client.py` — relay query loop;
* `src/api/nostr_daemon.py` — reconnect loop of the oracle daemon.

Modelling conventions:

* Python strings are Lean `String`s (a `String` here is a list of
  characters, matching Python's sequence-of-code-points view).
* Python regular expressions are translated by hand.  The anchors `^`/`$`
  are modelled as begin/end of string.  The patterns used by the source
  (`_X(\d+)$`, `_V(\d+)$`, `_(X|V)\d+$`, `^PERMIT_[A-Z0-9_]+(_X\d+|_V\d+)$`)
  all anchor a digit run at the end of the string, so each is equivalent to
  a condition on the maximal digit suffix of the string; the equivalence is
  argued in a comment next to each definition.
* Python numbers coming from JSON content are modelled as exact rationals
  (`ℚ`); `round(x, n)` is modelled as exact round-half-even at `n` decimal
  digits; `math.sqrt` (used only inside the Pearson correlation, whose
  output is clamped before use) is modelled as an arbitrary function
  parameter, so every theorem about `calculate_alpha` holds for any
  square-root implementation.
* Nostr relay queries are modelled as filtering a list of events (the
  relay state) with the NIP-01 filter semantics used by the source.
* sha256-derived event ids are modelled by the exact serialisation string
  that the source hashes (`[0,pubkey,created_at,kind,tags,content]`): the
  claims only ever compare ids for equality against strings that are not
  serialisations, so any injective stand-in is faithful.
-/

namespace TrocZen

/-! ## Characters, digit strings, decimal rendering -/

/-- `\d` of the Python regexes restricted to ASCII digits (the relevant
inputs are permit ids; the source compiles its patterns without
`re.UNICODE` tweaks but permit ids are ASCII by construction). -/
def isDigit (c : Char) : Bool := decide ('0' ≤ c ∧ c ≤ '9')

/-- The character class `[A-Z0-9_]` of `PERMIT_ID_PATTERN`. -/
def permitClass (c : Char) : Bool :=
  decide (('A' ≤ c ∧ c ≤ 'Z') ∨ ('0' ≤ c ∧ c ≤ '9') ∨ c = '_')

/-- Value of a decimal digit string, as computed by Python `int()` on a
string of digits. -/
def digitsVal (ds : List Char) : Nat :=
  ds.foldl (fun a c => 10 * a + (c.toNat - 48)) 0

/-- One decimal digit as a character. -/
def digitChar (d : Nat) : Char := Char.ofNat (48 + d)

/-- Fuel-driven decimal rendering (structural recursion so that concrete
values reduce inside the kernel). -/
def natDigitsF : Nat → Nat → List Char
  | 0, _ => []
  | fuel + 1, n =>
    if n < 10 then [digitChar n]
    else natDigitsF fuel (n / 10) ++ [digitChar (n % 10)]

/-- Decimal digits of `n`, most significant first: the digits Python's
`str(n)` / f-string interpolation produces for a non-negative `int`. -/
def natDigits (n : Nat) : List Char := natDigitsF (n + 1) n

/-- Python `str(n)` for a natural number. -/
def natStr (n : Nat) : String := ⟨natDigits n⟩

/-- Split a string into (prefix, maximal digit suffix).  Both Python
patterns `_X(\d+)$` and `_V(\d+)$` match iff the maximal digit suffix is
non-empty and the remaining prefix ends in `_X` (resp. `_V`): a match of
`\d+` anchored at `$` is a digit suffix; if it were shorter than the
maximal digit suffix the character before it would be a digit, which can
match neither `X` nor `V`. -/
def splitDigitSuffix (l : List Char) : List Char × List Char :=
  ((l.reverse.dropWhile isDigit).reverse, (l.reverse.takeWhile isDigit).reverse)

/-! ## Permit Manager (`src/api/oracle/permit_manager.py`) -/

/-- `PermitManager.extract_level`: `re.search(r'_X(\d+)$')`, then
`re.search(r'_V(\d+)$')`, else level 1. -/
def extract_level (s : String) : Nat :=
  let p := splitDigitSuffix s.data
  if p.2 ≠ [] ∧ ['_', 'X'] <:+ p.1 then digitsVal p.2
  else if p.2 ≠ [] ∧ ['_', 'V'] <:+ p.1 then digitsVal p.2
  else 1

/-- `PermitManager.extract_base_name`: `re.sub(r'_(X|V)\d+$', '', s)` —
remove the suffix `_X<digits>` / `_V<digits>` when present (the only
possible match of that anchored pattern is the maximal digit suffix
together with the preceding `_X`/`_V`). -/
def extract_base_name (s : String) : String :=
  let p := splitDigitSuffix s.data
  if p.2 ≠ [] ∧ (['_', 'X'] <:+ p.1 ∨ ['_', 'V'] <:+ p.1) then
    ⟨p.1.take (p.1.length - 2)⟩
  else s

/-- `PermitManager.is_valid_permit_id`:
`re.match(r'^PERMIT_[A-Z0-9_]+(_X\d+|_V\d+)$', s)`.  A match exists iff
the maximal digit suffix `ds` is non-empty, is preceded by `_X` or `_V`,
and what remains is `PERMIT_` followed by a non-empty `[A-Z0-9_]*` block
(the alternative group must consume exactly `_X ds`/`_V ds`: its digit run
is anchored at `$`, hence a suffix of `ds`, and a shorter run would put a
digit where the pattern needs `X`/`V`). -/
def is_valid_permit_id (s : String) : Bool :=
  let p := splitDigitSuffix s.data
  let core := p.1.take (p.1.length - 2)
  decide (p.2 ≠ []) &&
    (decide (['_', 'X'] <:+ p.1) || decide (['_', 'V'] <:+ p.1)) &&
    decide ("PERMIT_".data <+: core) &&
    decide (7 < core.length) &&
    (core.drop 7).all permitClass

/-- `PermitManager.get_next_level_id`: always produces the `_X` form,
`f"{base}_X{level + 1}"`. -/
def get_next_level_id (s : String) : String :=
  extract_base_name s ++ "_X" ++ natStr (extract_level s + 1)

/-- `PermitManager.get_parent_id`: `None` for level ≤ 1, else
`f"{base}_X{level - 1}"`. -/
def get_parent_id (s : String) : Option String :=
  if extract_level s ≤ 1 then none
  else some (extract_base_name s ++ "_X" ++ natStr (extract_level s - 1))

/-- `PermitManager.get_permit_type`: `'_V' in permit_id` is a substring
test anywhere in the id, not a suffix test. -/
def get_permit_type (s : String) : String :=
  if ['_', 'V'] <:+: s.data then "official" else "wotx2"

/-- `PermitManager.get_required_attestations`: 2 for `official`,
1 otherwise.  The permit definition content is not an input of the
source function. -/
def get_required_attestations (s : String) : Nat :=
  if get_permit_type s = "official" then 2 else 1

/-! ## Oracle-service permit helpers (`src/api/oracle/oracle_service.py`) -/

/-- `OracleService._extract_permit_level` — same two anchored regexes as
`PermitManager.extract_level`. -/
def oracle_extract_permit_level (s : String) : Nat :=
  let p := splitDigitSuffix s.data
  if p.2 ≠ [] ∧ ['_', 'X'] <:+ p.1 then digitsVal p.2
  else if p.2 ≠ [] ∧ ['_', 'V'] <:+ p.1 then digitsVal p.2
  else 1

/-- `OracleService._get_parent_permit`: for level ≤ 1 return the input
unchanged; otherwise `re.sub(rf'_X{level}$', f'_X{level-1}', s)`, which
rewrites the suffix `_X<str(level)>` when it is present and leaves the
string unchanged when it is not (in particular for official `_V…` ids). -/
def oracle_get_parent_permit (s : String) : String :=
  let level := oracle_extract_permit_level s
  if level ≤ 1 then s
  else
    let pat := '_' :: 'X' :: natDigits level
    if pat <:+ s.data then
      ⟨s.data.take (s.data.length - pat.length) ++ ('_' :: 'X' :: natDigits (level - 1))⟩
    else s

/-- `OracleService._get_required_threshold`: `'_V' in permit_id`
(substring anywhere) selects the `official` threshold 2, else 1. -/
def oracle_get_required_threshold (s : String) : Nat :=
  if ['_', 'V'] <:+: s.data then 2 else 1

/-! ## Tag dictionaries

Python `dict` assignment with string keys, the building block of
`OracleService._parse_tags` and of the comprehensions
`{t[0]: t[1] for t in tags if len(t) >= 2}` in
`CircuitIndexer._parse_bond_event` / `_parse_circuit_event`. -/

/-- `d[k] = v` on an association list: replace in place if the key is
present (keeping its position, as a Python dict does), else append. -/
def upsert {α : Type} : List (String × α) → String → α → List (String × α)
  | [], k, v => [(k, v)]
  | (k', v') :: rest, k, v =>
    if k' = k then (k', v) :: rest else (k', v') :: upsert rest k v

/-- `d.get(k)` on an association list. -/
def alookup {α : Type} : List (String × α) → String → Option α
  | [], _ => none
  | (k', v) :: rest, k => if k' = k then some v else alookup rest k

/-- `d.get(k, dflt)`. -/
def alookupD {α : Type} (m : List (String × α)) (k : String) (dflt : α) : α :=
  (alookup m k).getD dflt

/-- `OracleService._parse_tags` and the dict comprehension of
`CircuitIndexer._parse_bond_event`: iterate over the tag list, keep tags
with at least two elements, assign `result[tag[0]] = tag[1]`.  A repeated
tag name therefore ends up bound to its **last** occurrence. -/
def tagsToMap (tags : List (List String)) : List (String × String) :=
  tags.foldl
    (fun m t =>
      match t with
      | k :: v :: _ => upsert m k v
      | _ => m)
    []

/-! ## Nostr events and relay queries -/

/-- A Nostr event as the Python dictionaries carry it.  `sig` is omitted:
no claim inspects signatures. -/
structure NEvent where
  id : String
  pubkey : String
  created_at : Nat
  kind : Nat
  tags : List (List String)
  content : String
deriving DecidableEq, Repr

/-- A NIP-01 relay filter, with the fields the Oracle Service sends
(`ids`, `authors`, `kinds` and `#<name>` tag filters; the Oracle's
queries pass no `since`/`until`/`limit`). -/
structure NFilter where
  ids : Option (List String)
  authors : Option (List String)
  kinds : Option (List Nat)
  tagFilters : List (String × List String)
deriving Repr

/-- `#<name>: vals` filter semantics: the event has some tag
`[name, v, …]` with `v ∈ vals`. -/
def hasTagValue (e : NEvent) (name : String) (vals : List String) : Bool :=
  e.tags.any fun t =>
    match t with
    | n :: v :: _ => n = name && vals.contains v
    | _ => false

/-- An event matches a filter iff it satisfies every present field. -/
def matchesFilter (f : NFilter) (e : NEvent) : Bool :=
  (match f.ids with
   | none => true
   | some l => l.contains e.id) &&
  (match f.authors with
   | none => true
   | some l => l.contains e.pubkey) &&
  (match f.kinds with
   | none => true
   | some l => l.contains e.kind) &&
  f.tagFilters.all fun p => hasTagValue e p.1 p.2

/-- A relay query: the relay state is the list of stored events (in
storage order) and a query returns the matching ones in that order. -/
def queryEvents (relay : List NEvent) (f : NFilter) : List NEvent :=
  relay.filter (matchesFilter f)

/-! ## Oracle Service (`src/api/oracle/oracle_service.py`) -/

/-- `OracleService._check_existing_credential`: kind 30503 by the oracle
key with `#e = [request_id]`; first hit if any. -/
def check_existing_credential (relay : List NEvent) (oraclePk requestId : String) :
    Option NEvent :=
  (queryEvents relay ⟨none, some [oraclePk], some [30503], [("e", [requestId])]⟩).head?

/-- `OracleService._get_request_event`: first by event id, then by the
`d` tag of a kind 30501. -/
def get_request_event (relay : List NEvent) (requestId : String) : Option NEvent :=
  match (queryEvents relay ⟨some [requestId], none, none, []⟩).head? with
  | some e => some e
  | none => (queryEvents relay ⟨none, none, some [30501], [("d", [requestId])]⟩).head?

/-- `OracleService._get_all_attestations`: every kind 30502 with
`#e = [request_id]`. -/
def get_all_attestations (relay : List NEvent) (requestId : String) : List NEvent :=
  queryEvents relay ⟨none, none, some [30502], [("e", [requestId])]⟩

/-- The filter `_verify_attestor_qualification` sends for the parent
credential of `parentPermit`. -/
def qualificationFilter (oraclePk attestor parentPermit : String) : NFilter :=
  ⟨none, some [oraclePk], some [30503], [("p", [attestor]), ("permit_id", [parentPermit])]⟩

/-- `OracleService._verify_attestor_qualification`: level ≤ 1 is the
bootstrap (always qualified); above that the attestor must hold a
credential for `_get_parent_permit(permit_id)`. -/
def verify_attestor_qualification
    (relay : List NEvent) (oraclePk attestor permitId : String) : Bool :=
  if oracle_extract_permit_level permitId ≤ 1 then true
  else
    0 < (queryEvents relay
      (qualificationFilter oraclePk attestor (oracle_get_parent_permit permitId))).length

/-- JSON string literal.  The strings fed through it by the claims
contain no quotes or backslashes, so no escaping is modelled. -/
def jstr (s : String) : String := "\"" ++ s ++ "\""

/-- `json.dumps` of a tag list with compact separators. -/
def jsonTags (tags : List (List String)) : String :=
  "[" ++ String.intercalate ","
    (tags.map fun t => "[" ++ String.intercalate "," (t.map jstr) ++ "]") ++ "]"

/-- The serialisation `[0,pubkey,created_at,kind,tags,content]` that
`_sign_event` hashes to obtain the event id.  Used directly as the id
stand-in (see the header note). -/
def serializeEvent (e : NEvent) : String :=
  "[0," ++ jstr e.pubkey ++ "," ++ natStr e.created_at ++ "," ++ natStr e.kind ++
    "," ++ jsonTags e.tags ++ "," ++ jstr e.content ++ "]"

/-- `OracleService._sign_event`, reduced to the id computation: the
signed event carries `id = sha256(serialisation)` (modelled by the
serialisation itself). -/
def sign_event (e : NEvent) : NEvent :=
  { e with id := serializeEvent e }

/-- The W3C VC JSON built by `_issue_credential` (opaque to every claim;
kept so that the credential event has its real shape). -/
def vcContentJson (oraclePk requester permitId : String)
    (level count issuedAt expiresAt : Nat) : String :=
  "\x7b" ++ jstr "issuer" ++ ":" ++ jstr ("did:nostr:" ++ oraclePk) ++ "," ++
    jstr "issuanceDate" ++ ":" ++ natStr issuedAt ++ "," ++
    jstr "expirationDate" ++ ":" ++ natStr expiresAt ++ "," ++
    jstr "credentialSubject" ++ ":\x7b" ++
    jstr "id" ++ ":" ++ jstr ("did:nostr:" ++ requester) ++ "," ++
    jstr "permit_id" ++ ":" ++ jstr permitId ++ "," ++
    jstr "level" ++ ":" ++ natStr level ++ "," ++
    jstr "attestations_count" ++ ":" ++ natStr count ++ "\x7d\x7d"

/-- Number of days a credential stays valid
(`OracleService.CREDENTIAL_VALIDITY_DAYS`). -/
def CREDENTIAL_VALIDITY_DAYS : Nat := 365

/-- `OracleService._issue_credential`: build the kind-30503 event for the
resolved request, sign it and publish it.  The published (signed) event is
the return value; the caller adds it to the relay.  Note that the `e` tag
receives `request_event['id']` (the `.get` fallback to the `d` tag never
fires because relay events always carry an id), not the request-id the
attestation referred to. -/
def issue_credential (request_event : NEvent) (attestors : List String)
    (oraclePk : String) (now : Nat) : NEvent :=
  let request_tags := tagsToMap request_event.tags
  let requester := request_event.pubkey
  let permit_id := alookupD request_tags "permit_id" ""
  let request_id := request_event.id
  let issued_at := now
  let expires_at := issued_at + CREDENTIAL_VALIDITY_DAYS * 86400
  sign_event
    { id := ""
      pubkey := oraclePk
      created_at := issued_at
      kind := 30503
      tags := [["d", "vc_" ++ requester ++ "_" ++ permit_id ++ "_" ++ natStr issued_at],
               ["e", request_id],
               ["p", requester],
               ["permit_id", permit_id],
               ["expires", natStr expires_at],
               ["attestations", natStr attestors.length]]
      content := vcContentJson oraclePk requester permit_id
        (oracle_extract_permit_level permit_id) attestors.length issued_at expires_at }

/-- Python `x or y` on optional strings: `None` and `""` both fall
through to the second operand. -/
def pyOrStr (a b : Option String) : Option String :=
  match a with
  | some s => if s = "" then (match b with | some "" => none | x => x) else some s
  | none => match b with | some "" => none | x => x

/-- `OracleService.process_attestation` over a relay state, one incoming
kind-30502 attestation and the current time.  Returns the published
credential event, or `none` on any of the drop paths (no request
reference, idempotence hit, unresolved request, self-attestation,
unqualified attestor, threshold not reached).  The final `pyOrStr`
also yields `none` when the resolved reference is the empty string,
matching the `if not request_id` test. -/
def process_attestation (relay : List NEvent) (att : NEvent)
    (oraclePk : String) (now : Nat) : Option NEvent :=
  let tags := tagsToMap att.tags
  match pyOrStr (alookup tags "e") (alookup tags "a") with
  | none => none
  | some request_id =>
    let attestor_pubkey := att.pubkey
    if (check_existing_credential relay oraclePk request_id).isSome then none
    else
      match get_request_event relay request_id with
      | none => none
      | some request_event =>
        let request_tags := tagsToMap request_event.tags
        let requester_pubkey := request_event.pubkey
        let permit_id := alookupD request_tags "permit_id" ""
        if attestor_pubkey = requester_pubkey then none
        else if ¬ verify_attestor_qualification relay oraclePk attestor_pubkey permit_id
        then none
        else
          let all_attestations := get_all_attestations relay request_id
          let unique_attestors :=
            ((all_attestations.map (·.pubkey)) ++ [attestor_pubkey]).dedup
          if oracle_get_required_threshold permit_id ≤ unique_attestors.length then
            some (issue_credential request_event unique_attestors oraclePk now)
          else none

/-! ## DU engine social graph (`src/api/dragon/du_engine.py`)

For `_get_n1_list` / `_get_n2_list` the relay is modelled — as the claim
asks — as a map from author to the tag list of that author's latest
kind-3 event: an association list in storage order.  The batch query
`{"kinds": [3], "authors": L, "limit": len(L)}` then returns the entries
whose author is in `L` (at most one per author, so the limit never
truncates). -/

/-- All `p`-tag values of a kind-3 tag list, in order. -/
def pTagValues (tags : List (List String)) : List String :=
  tags.filterMap fun t =>
    match t with
    | n :: v :: _ => if n = "p" then some v else none
    | _ => none

/-- The contact list the relay state assigns to `x`: `p`-tags of its
latest kind-3 event, `[]` when it has none.  (`follows(x)` of the
claim.) -/
def followsOf (relay : List (String × List (List String))) (x : String) : List String :=
  match alookup relay x with
  | some tags => pTagValues tags
  | none => []

/-- `DUEngine._get_n1_list`: fetch the user's kind 3, collect the set of
followed keys, batch-fetch their kind 3s, keep the follows that follow
the user back.  Python's `set` of follows is modelled as a deduplicated
list; `follows_by_author` is rebuilt with dict assignment. -/
def get_n1_list (relay : List (String × List (List String))) (user : String) :
    List String :=
  match alookup relay user with
  | none => []
  | some tags =>
    let follows := (pTagValues tags).dedup
    if follows = [] then []
    else
      let follow_events := relay.filter fun p => follows.contains p.1
      let follows_by_author :=
        follow_events.foldl (fun m p => upsert m p.1 ((pTagValues p.2).dedup)) []
      follows.filter fun f =>
        match alookup follows_by_author f with
        | some fs => fs.contains user
        | none => false

/-- `DUEngine._get_n2_list`: batch-fetch the kind 3s of N1 and take the
union of **all their `p`-tags** (not of their own N1 lists), dropping the
user and the N1 members. -/
def get_n2_list (relay : List (String × List (List String))) (user : String) :
    List String :=
  let n1 := get_n1_list relay user
  if n1 = [] then []
  else
    let n1_events := relay.filter fun p => n1.contains p.1
    (n1_events.foldl
      (fun acc p =>
        acc ++ (pTagValues p.2).filter fun x => x ≠ user ∧ ¬ n1.contains x)
      []).dedup

/-! ## Exact decimal rounding (Python `round`) -/

/-- Round-half-even to an integer, the idealised semantics of Python's
`round()` on an exact value. -/
def rhe (q : ℚ) : ℤ :=
  if q - ⌊q⌋ < 1/2 then ⌊q⌋
  else if 1/2 < q - ⌊q⌋ then ⌊q⌋ + 1
  else if ⌊q⌋ % 2 = 0 then ⌊q⌋ else ⌊q⌋ + 1

/-- `round(q, 3)`. -/
def round3 (q : ℚ) : ℚ := (rhe (q * 1000) : ℚ) / 1000

/-- `round(q, 4)`. -/
def round4 (q : ℚ) : ℚ := (rhe (q * 10000) : ℚ) / 10000

/-! ## Circuit indexer inter-market rates
(`src/api/dragon/circuit_indexer.py`, `calculate_intermarket_rates`) -/

/-- The fields of a parsed circuit content used by
`calculate_intermarket_rates`: `content.get('market_id', '')`,
`content.get('dest_market_id', '')`, `content.get('value_zen', 0)`. -/
structure CircuitFlow where
  market_id : String
  dest_market_id : String
  value_zen : ℚ

/-- Python `<` on strings: lexicographic comparison of code points. -/
def charsLt : List Char → List Char → Bool
  | [], [] => false
  | [], _ :: _ => true
  | _ :: _, [] => false
  | a :: as, b :: bs =>
    if a.toNat < b.toNat then true
    else if b.toNat < a.toNat then false
    else charsLt as bs

/-- Python `<` on strings. -/
def pyStrLt (a b : String) : Bool := charsLt a.data b.data

/-- `tuple(sorted([a, b]))`. -/
def sortPair (a b : String) : String × String :=
  if pyStrLt a b then (a, b) else (b, a)

/-- `flows[key]['a_to_b'] += v` / `flows[key]['b_to_a'] += v` on the
`defaultdict(lambda: {'a_to_b': 0, 'b_to_a': 0})`. -/
def bumpFlow : List ((String × String) × ℚ × ℚ) → String × String → Bool → ℚ →
    List ((String × String) × ℚ × ℚ)
  | [], k, isAB, v => [(k, if isAB then (v, 0) else (0, v))]
  | (k', f) :: rest, k, isAB, v =>
    if k' = k then (k', if isAB then (f.1 + v, f.2) else (f.1, f.2 + v)) :: rest
    else (k', f) :: bumpFlow rest k isAB v

/-- The body of the flow-accumulation loop of
`calculate_intermarket_rates`: a circuit whose content names a non-empty
destination market different from its market adds its value to the
directed flow of the sorted market pair. -/
def buildFlowsStep (flows : List ((String × String) × ℚ × ℚ)) (c : CircuitFlow) :
    List ((String × String) × ℚ × ℚ) :=
  if c.dest_market_id ≠ "" ∧ c.dest_market_id ≠ c.market_id then
    bumpFlow flows (sortPair c.market_id c.dest_market_id)
      (pyStrLt c.market_id c.dest_market_id) c.value_zen
  else flows

/-- The flow-accumulation loop of `calculate_intermarket_rates`. -/
def buildFlows (cs : List CircuitFlow) : List ((String × String) × ℚ × ℚ) :=
  cs.foldl buildFlowsStep []

/-- The body of the rate-assembly loop of `calculate_intermarket_rates`:
an accumulated pair with positive total records `rates[m1][m2]` and
`rates[m2][m1]`, both rounded to 3 decimals. -/
def ratesStep (rates : List ((String × String) × ℚ)) (p : (String × String) × ℚ × ℚ) :
    List ((String × String) × ℚ) :=
  let total := p.2.1 + p.2.2
  if 0 < total then
    let rate := if pyStrLt p.1.1 p.1.2 then p.2.1 / total else p.2.2 / total
    rates ++ [((p.1.1, p.1.2), round3 rate), ((p.1.2, p.1.1), round3 (1 - rate))]
  else rates

/-- `CircuitIndexer.calculate_intermarket_rates` as a function of the
parsed 30-day circuits.  The nested dict `{A: {B: rate}}` is modelled as
a flat association list keyed by the ordered pair. -/
def calculate_intermarket_rates (cs : List CircuitFlow) :
    List ((String × String) × ℚ) :=
  (buildFlows cs).foldl ratesStep []

/-- `rates.get(a, {}).get(b)` on the modelled matrix. -/
def ratesLookup (rates : List ((String × String) × ℚ)) (a b : String) : Option ℚ :=
  match rates with
  | [] => none
  | (k, v) :: rest => if k = (a, b) then some v else ratesLookup rest a b

/-- Directed plus reverse flow a set of circuits contributes to the
unordered pair with sorted key `k` (the reference value the claim
compares the matrix against). -/
def pairTotal (cs : List CircuitFlow) (k : String × String) : ℚ :=
  (cs.map fun c =>
    if c.dest_market_id ≠ "" ∧ c.dest_market_id ≠ c.market_id ∧
        sortPair c.market_id c.dest_market_id = k then c.value_zen else 0).sum

/-- `flows.get(k)` on the accumulated flow table. -/
def flowFind (flows : List ((String × String) × ℚ × ℚ)) (k : String × String) :
    Option (ℚ × ℚ) :=
  match flows with
  | [] => none
  | (k', f) :: rest => if k' = k then some f else flowFind rest k

/-- Total (both directions) of an optional flow entry. -/
def flowTotalOf (o : Option (ℚ × ℚ)) : ℚ :=
  match o with
  | some f => f.1 + f.2
  | none => 0

/-! ## Params engine (`src/api/dragon/params_engine.py`)

`calculate_c2`, `calculate_alpha` and `calculate_ttl_optimal` are modelled
as functions of the data their relay helpers return: the parsed 30-day
circuits (`_get_loops_30d`), the emitted TTLs (`_get_emitted_ttls_30d`),
the expired-bond count (`_get_expired_count_30d`) and the
previous-window loop count (`_get_loops_prev_month`). -/

/-- The fields of a parsed loop used by the params engine:
`age_days` (0 when absent) and `skill_cert` (`""` models Python's
`None`/missing, both falsy). -/
structure Loop where
  age_days : ℚ
  skill_cert : String
deriving Repr

/-- `ParamsEngine._median`: sort ascending, average the two middle
elements for even length (`0` for the empty list). -/
def pymedian (l : List ℚ) : ℚ :=
  if l = [] then 0
  else
    let s := l.insertionSort (· ≤ ·)
    let mid := l.length / 2
    if l.length % 2 = 0 then (s.getD (mid - 1) 0 + s.getD mid 0) / 2
    else s.getD mid 0

/-- `median_return` as computed in `calculate_c2` /
`calculate_ttl_optimal`: the median of the truthy (non-zero) `age_days`,
or 0 when none. -/
def medianReturn (loops : List Loop) : ℚ :=
  let ages := (loops.map (·.age_days)).filter (· ≠ 0)
  if ages = [] then 0 else pymedian ages

/-- `ParamsEngine.TTL_DEFAULT`. -/
def TTL_DEFAULT : ℚ := 28

/-- `median_ttl` as computed in `calculate_c2`: median of the emitted
TTLs, or `TTL_DEFAULT` when none were emitted. -/
def medianTtl (emitted_ttls : List ℚ) : ℚ :=
  if emitted_ttls = [] then TTL_DEFAULT else pymedian emitted_ttls

/-- `ParamsEngine.calculate_c2`, returning the `c2` field of the result
dict (`round(c2, 4)`). -/
def calculate_c2 (loops : List Loop) (emitted_ttls : List ℚ)
    (expired_count prev_loops_count : Nat) : ℚ :=
  let median_return := medianReturn loops
  let median_ttl := medianTtl emitted_ttls
  let health_ratio := min ((loops.length : ℚ) / max (expired_count : ℚ) 0.1) 2
  let n1_growth :=
    min (max 0 (((loops.length : ℚ) - (prev_loops_count : ℚ)) /
      max (prev_loops_count : ℚ) 1)) 0.5
  let c2 :=
    if 0 < median_return ∧ 0 < median_ttl then
      max 0.02 (min ((median_return / median_ttl) * health_ratio * (1 + n1_growth)) 0.25)
    else 0.07
  round4 c2

/-- `ParamsEngine.calculate_ttl_optimal`:
`round(median_return * 1.5)` clamped to `[7, 365]`, default 28 when the
median return is not positive. -/
def calculate_ttl_optimal (loops : List Loop) : ℤ :=
  let median_return := medianReturn loops
  if 0 < median_return then max 7 (min (rhe (median_return * 1.5)) 365)
  else 28

/-- `ParamsEngine._extract_skill_level`: falsy certs give level 1, else
`re.search(r'_X(\d+)$')` (no `_V` alternative here), else 1. -/
def extract_skill_level (cert : String) : Nat :=
  if cert = "" then 1
  else
    let p := splitDigitSuffix cert.data
    if p.2 ≠ [] ∧ ['_', 'X'] <:+ p.1 then digitsVal p.2 else 1

/-- `ParamsEngine._pearson_correlation`, with `math.sqrt` abstracted as
`sqrtFn` (its output only feeds the clamped α). -/
def pearson_correlation (sqrtFn : ℚ → ℚ) (x y : List ℚ) : ℚ :=
  let n := min x.length y.length
  if n < 3 then 0
  else
    let xs := x.take n
    let ys := y.take n
    let mean_x := xs.sum / n
    let mean_y := ys.sum / n
    let numer := (List.zipWith (fun a b => (a - mean_x) * (b - mean_y)) xs ys).sum
    let sum_sq_x := (xs.map fun a => (a - mean_x) ^ 2).sum
    let sum_sq_y := (ys.map fun b => (b - mean_y) ^ 2).sum
    let denom := sqrtFn (sum_sq_x * sum_sq_y)
    if denom = 0 then 0 else numer / denom

/-- `ParamsEngine.calculate_alpha`, returning the `alpha` field of the
result dict: the default 0.3 below 5 skill-certified loops, else
`round(clip(0.8 · r, 0, 1), 3)`.  `skill_loops` is the output of
`_get_skill_loops_30d` (the 30-day loops with a truthy `skill_cert`). -/
def calculate_alpha (sqrtFn : ℚ → ℚ) (skill_loops : List Loop) : ℚ :=
  if skill_loops.length < 5 then 0.3
  else
    let skill_levels := skill_loops.map fun l => (extract_skill_level l.skill_cert : ℚ)
    let return_ages := skill_loops.map fun l => -l.age_days
    if 3 ≤ skill_levels.length then
      let corr := pearson_correlation sqrtFn skill_levels return_ages
      round3 (max 0 (min (corr * 0.8) 1))
    else 0.3

/-! ## Relay client query loop (`src/api/nostr_client.py`, `query_events`) -/

/-- A frame delivered by the websocket iterator, after `json.loads`. -/
inductive RelayMsg
  | evt (e : NEvent)
  | eose
  | closed
  | other
deriving DecidableEq, Repr

/-- One step of the receive loop: either a frame arrives or the iterator
raises because the connection broke. -/
inductive StreamItem
  | msg (m : RelayMsg)
  | disconnect
deriving DecidableEq, Repr

/-- The typed connection error the specification requires `Query` to
surface. -/
inductive ConnError
  | broken
deriving DecidableEq, Repr

/-- The collect loop of `NostrClient.query_events` with its accumulator:
`EVENT` frames are appended, `EOSE`/`CLOSED` break the loop (the
subsequent `CLOSE` send succeeds and the collected events are returned),
any other frame is ignored, and an exception from the iterator lands in
the catch-all `except`, which returns the **empty** list.  An exhausted
stream models a gracefully completed subscription. -/
def query_events_loop : List StreamItem → List NEvent → List NEvent
  | [], acc => acc
  | StreamItem.disconnect :: _, _ => []
  | StreamItem.msg m :: rest, acc =>
    match m with
    | RelayMsg.evt e => query_events_loop rest (acc ++ [e])
    | RelayMsg.eose => acc
    | RelayMsg.closed => acc
    | RelayMsg.other => query_events_loop rest acc

/-- `NostrClient.query_events` over a receive stream. -/
def query_events (stream : List StreamItem) : List NEvent :=
  query_events_loop stream []

/-- Modelled from the spec: the best-effort contract §4.1 prescribes for
`Query` (the source has no function implementing it — `query_events`
swallows the exception instead).  On a break, return the events already
received **plus** a typed connection error. -/
def query_events_spec_loop : List StreamItem → List NEvent →
    List NEvent × Option ConnError
  | [], acc => (acc, none)
  | StreamItem.disconnect :: _, acc => (acc, some ConnError.broken)
  | StreamItem.msg m :: rest, acc =>
    match m with
    | RelayMsg.evt e => query_events_spec_loop rest (acc ++ [e])
    | RelayMsg.eose => (acc, none)
    | RelayMsg.closed => (acc, none)
    | RelayMsg.other => query_events_spec_loop rest acc

/-- Modelled from the spec: best-effort `Query` (see
`query_events_spec_loop`). -/
def query_events_spec (stream : List StreamItem) : List NEvent × Option ConnError :=
  query_events_spec_loop stream []

/-! ## Oracle daemon reconnect loop (`src/api/nostr_daemon.py`) -/

/-- Outcome of one connection attempt of `listen_to_nostr`: the connect
raises (`ConnectionRefusedError` & co.), or it succeeds — resetting the
retry counter — and the subscription later dies with
`ConnectionClosed`. -/
inductive ConnAttempt
  | fails
  | opensThenDrops
deriving DecidableEq, Repr

/-- The `while retry_count < max_retries` loop of `listen_to_nostr`,
driven by a script of attempt outcomes.  Returns the list of
`asyncio.sleep` delays (in seconds, `retry_delay * retry_count` after the
increment) and whether the loop exited because the retry budget was
exhausted (`false` means the script ran out while the daemon would still
be retrying). -/
def listen_loop : Nat → List ConnAttempt → List Nat × Bool
  | c, [] => if 10 ≤ c then ([], true) else ([], false)
  | c, ConnAttempt.fails :: rest =>
    if 10 ≤ c then ([], true)
    else
      let r := listen_loop (c + 1) rest
      (5 * (c + 1) :: r.1, r.2)
  | c, ConnAttempt.opensThenDrops :: rest =>
    if 10 ≤ c then ([], true)
    else
      let r := listen_loop 1 rest
      (5 :: r.1, r.2)

/-- What the daemon process exits with once `listen_to_nostr` gives up:
the coroutine just returns (line 133), `main()` returns, `asyncio.run`
completes and the interpreter exits normally — status 0.  (`sys.exit` is
reached only on `KeyboardInterrupt`, also with 0.) -/
def daemon_exit_code : Nat := 0

/-! ## Reference values used in claim statements -/

/-- The value of the **last** tag `[k, v, …]` in a tag list (the claims
compare the parsed maps against first/last occurrences). -/
def lastTagValue (tags : List (List String)) (k : String) : Option String :=
  (tags.filterMap fun t =>
    match t with
    | n :: v :: _ => if n = k then some v else none
    | _ => none).getLast?

/-- The events carried by a prefix of a receive stream, in order. -/
def eventsOf (msgs : List RelayMsg) : List NEvent :=
  msgs.filterMap fun m =>
    match m with
    | RelayMsg.evt e => some e
    | _ => none

/-- Modelled from the claim's words (claim C4): `N2(user)` as the union
of `N1(f)` over `f ∈ N1(user)`, minus `N1(user)` and the user — the
second-level **reciprocal** neighbourhood.  The source instead unions the
raw contact lists of the N1 members. -/
def n2_claimed (relay : List (String × List (List String))) (user : String) :
    List String :=
  let n1 := get_n1_list relay user
  ((n1.foldl (fun acc f => acc ++ get_n1_list relay f) []).filter
    (fun x => x ≠ user ∧ ¬ n1.contains x)).dedup

/-- Contact-list relay used by the C4 example: `A` follows `B`; `B`
follows `A` and `E`; `E` has published no contact list. -/
def relayCex : List (String × List (List String)) :=
  [("A", [["p", "B"]]), ("B", [["p", "A"], ["p", "E"]])]

/-- The kind-30501 permit request of the C1 scenario: published with a
replaceable `d` identifier `req1` distinct from its event id. -/
def requestEvent0 : NEvent :=
  { id := "5c9a1de0", pubkey := "U", created_at := 10, kind := 30501,
    tags := [["d", "req1"], ["permit_id", "PERMIT_MARAICHAGE_X1"]], content := "" }

/-- The kind-30502 attestation of the C1 scenario, referring to the
request by its `d` value. -/
def attEvent0 : NEvent :=
  { id := "a77e02c1", pubkey := "V", created_at := 20, kind := 30502,
    tags := [["e", "req1"]], content := "" }

/-- Relay state of the C1 scenario (the attestation is stored by the
relay before the daemon dispatches it). -/
def oracleRelay0 : List NEvent := [attEvent0, requestEvent0]

/-- The credential published by the first processing of `attEvent0`. -/
def oracleCred1 : NEvent :=
  (process_attestation oracleRelay0 attEvent0 "oraclepk" 1000).getD attEvent0

/-- The credential published by the second processing of the same
attestation, after the first credential reached the relay. -/
def oracleCred2 : NEvent :=
  (process_attestation (oracleCred1 :: oracleRelay0) attEvent0 "oraclepk" 2000).getD attEvent0

/-! # Theorems

First the shared helper lemmas (association lists, digit strings,
rounding), then one theorem per claim, each with its doc comment, and
witnesses / counterexamples where the scheme requires them. -/

/-! ## Association-list lemmas -/

@[simp] theorem alookup_nil {α : Type} (k : String) :
    alookup ([] : List (String × α)) k = none := rfl

@[simp] theorem alookup_cons {α : Type} (a : String) (b : α) (rest : List (String × α))
    (k : String) :
    alookup ((a, b) :: rest) k = if a = k then some b else alookup rest k := rfl

@[simp] theorem upsert_nil {α : Type} (k : String) (v : α) :
    upsert ([] : List (String × α)) k v = [(k, v)] := rfl

@[simp] theorem upsert_cons {α : Type} (a : String) (b : α) (rest : List (String × α))
    (k : String) (v : α) :
    upsert ((a, b) :: rest) k v =
      if a = k then (a, v) :: rest else (a, b) :: upsert rest k v := rfl

theorem alookup_upsert_self {α : Type} (m : List (String × α)) (k : String) (v : α) :
    alookup (upsert m k v) k = some v := by
  induction m with
  | nil => simp
  | cons p rest ih =>
    obtain ⟨a, b⟩ := p
    by_cases h : a = k <;> simp [h, ih]

theorem alookup_upsert_ne {α : Type} (m : List (String × α)) (k k' : String) (v : α)
    (h : k' ≠ k) : alookup (upsert m k v) k' = alookup m k' := by
  induction m with
  | nil => simp [Ne.symm h]
  | cons p rest ih =>
    obtain ⟨a, b⟩ := p
    by_cases hp : a = k
    · subst hp
      simp [Ne.symm h]
    · by_cases hp' : a = k' <;> simp [hp, hp', h, ih]

theorem alookup_filter_keys {α : Type} (l : List (String × α)) (q : String → Bool)
    (k : String) :
    alookup (l.filter fun p => q p.1) k = if q k then alookup l k else none := by
  induction l with
  | nil => simp
  | cons p rest ih =>
    obtain ⟨a, b⟩ := p
    by_cases hq : q a
    · by_cases hk : a = k
      · subst hk
        simp [List.filter_cons, hq]
      · simp [List.filter_cons, hq, hk, ih]
    · by_cases hk : a = k
      · subst hk
        simp [List.filter_cons, hq, ih]
      · simp [List.filter_cons, hq, hk, ih]

theorem alookup_none_of_not_mem_keys {α : Type} {l : List (String × α)} {k : String}
    (h : k ∉ l.map Prod.fst) : alookup l k = none := by
  induction l with
  | nil => simp
  | cons p rest ih =>
    obtain ⟨a, b⟩ := p
    simp only [List.map_cons, List.mem_cons] at h
    push_neg at h
    simp [Ne.symm h.1, ih h.2]

theorem alookup_fold_upsert {α β : Type} (g : α → β) :
    ∀ (l : List (String × α)) (m : List (String × β)) (k : String),
      (l.map Prod.fst).Nodup →
      alookup (l.foldl (fun m p => upsert m p.1 (g p.2)) m) k =
        match alookup l k with
        | some v => some (g v)
        | none => alookup m k := by
  intro l
  induction l with
  | nil => intro m k _; simp
  | cons p rest ih =>
    intro m k hnd
    obtain ⟨a, b⟩ := p
    simp only [List.map_cons, List.nodup_cons] at hnd
    simp only [List.foldl_cons]
    rw [ih _ _ hnd.2]
    by_cases hk : a = k
    · subst hk
      rw [alookup_none_of_not_mem_keys hnd.1]
      simp [alookup_upsert_self]
    · simp [hk, alookup_upsert_ne _ _ _ _ (fun hh => hk hh.symm)]

theorem alookup_some_mem {α : Type} {l : List (String × α)} {k : String} {v : α}
    (h : alookup l k = some v) : (k, v) ∈ l := by
  induction l with
  | nil => simp at h
  | cons p rest ih =>
    obtain ⟨a, b⟩ := p
    by_cases hp : a = k
    · subst hp
      have hb : b = v := by simpa using h
      subst hb
      exact List.mem_cons_self _ _
    · simp only [alookup_cons, if_neg hp] at h
      exact List.mem_cons_of_mem _ (ih h)

theorem mem_alookup_of_nodup {α : Type} {l : List (String × α)} {p : String × α}
    (hnd : (l.map Prod.fst).Nodup) (hm : p ∈ l) : alookup l p.1 = some p.2 := by
  induction l with
  | nil => simp at hm
  | cons q rest ih =>
    simp only [List.map_cons, List.nodup_cons] at hnd
    rcases List.mem_cons.1 hm with h | h
    · subst h
      simp [alookup]
    · have : q.1 ≠ p.1 := by
        intro he
        exact hnd.1 (he ▸ List.mem_map_of_mem Prod.fst h)
      simp [alookup, this, ih hnd.2 h]

theorem mem_foldl_append {β γ : Type} (h : β → List γ) :
    ∀ (l : List β) (init : List γ) (x : γ),
      x ∈ l.foldl (fun acc p => acc ++ h p) init ↔ x ∈ init ∨ ∃ p ∈ l, x ∈ h p := by
  intro l
  induction l with
  | nil => simp
  | cons p rest ih =>
    intro init x
    simp only [List.foldl_cons]
    rw [ih]
    simp only [List.mem_append, List.mem_cons]
    constructor
    · rintro ((hx | hx) | ⟨q, hq, hx⟩)
      · exact Or.inl hx
      · exact Or.inr ⟨p, Or.inl rfl, hx⟩
      · exact Or.inr ⟨q, Or.inr hq, hx⟩
    · rintro (hx | ⟨q, (rfl | hq), hx⟩)
      · exact Or.inl (Or.inl hx)
      · exact Or.inl (Or.inr hx)
      · exact Or.inr ⟨q, hq, hx⟩

/-! ## Claim C3 — tag maps bind the last occurrence, not the first -/

/--
**C3, counterexample.**  The claim says the tag-name-to-value map binds a
repeated name to its *first* occurrence.  On the event tag list
`[["e","1"], ["e","2"]]` the parser of `OracleService._parse_tags` (and
the identical dict comprehension of `CircuitIndexer._parse_bond_event`)
binds `"e"` to `"2"`, the second occurrence, not `"1"`.
-/
theorem C3_parse_tags_first_occurrence_cex :
    alookup (tagsToMap [["e", "1"], ["e", "2"]]) "e" = some "2" ∧
      some "2" ≠ some "1" := by
  decide

/--
**C3, amended.**  For every tag list and every tag name, the parsed map
binds the name to the value of the **last** tag of length ≥ 2 carrying
that name (Python dict assignment overwrites earlier bindings).
-/
theorem C3_parse_tags_last_occurrence (tags : List (List String)) (k : String) :
    alookup (tagsToMap tags) k = lastTagValue tags k := by
  induction tags using List.reverseRecOn with
  | nil => simp [tagsToMap, lastTagValue]
  | append_singleton l t ih =>
    have hfold : tagsToMap (l ++ [t]) =
        (match t with
         | k :: v :: _ => upsert (tagsToMap l) k v
         | _ => tagsToMap l) := by
      simp [tagsToMap, List.foldl_append]
    match t with
    | [] =>
      simp only [hfold]
      rw [ih]
      simp [lastTagValue, List.filterMap_append]
    | [a] =>
      simp only [hfold]
      rw [ih]
      simp [lastTagValue, List.filterMap_append]
    | a :: v :: rest =>
      simp only [hfold]
      by_cases hk : a = k
      · subst hk
        rw [alookup_upsert_self]
        simp [lastTagValue, List.filterMap_append]
      · rw [alookup_upsert_ne _ _ _ _ (fun hh => hk hh.symm), ih]
        simp [lastTagValue, List.filterMap_append, hk]

/-! ## Claim C7 — required attestations -/

/--
**C7, counterexample.**  `PERMIT_VERT_X1` is a valid, `_X`-suffixed
(community) permit id, yet both `PermitManager.get_required_attestations`
and `OracleService._get_required_threshold` return 2 for it, not the 1
the claim requires for community permits: the `official` test is the
substring test `'_V' in permit_id`, which fires on the `_VERT` of the
base name.
-/
theorem C7_required_attestations_cex :
    is_valid_permit_id "PERMIT_VERT_X1" = true ∧
      (['_', 'X', '1'] <:+ "PERMIT_VERT_X1".data) ∧
      get_required_attestations "PERMIT_VERT_X1" = 2 ∧
      oracle_get_required_threshold "PERMIT_VERT_X1" = 2 ∧
      (2 : Nat) ≠ 1 := by
  decide

/--
**C7, amended.**  The required-attestation count depends only on whether
the permit id contains `_V` as a substring anywhere: 2 when it does,
1 otherwise.  The permit definition content is never consulted (the
source functions take no definition argument), and the Oracle Service
threshold agrees with the Permit Manager everywhere.
-/
theorem C7_required_attestations_amended (s : String) :
    get_required_attestations s = (if ['_', 'V'] <:+: s.data then 2 else 1) ∧
      oracle_get_required_threshold s = get_required_attestations s := by
  constructor
  · by_cases h : ['_', 'V'] <:+: s.data <;>
      simp [get_required_attestations, get_permit_type, h]
  · by_cases h : ['_', 'V'] <:+: s.data <;>
      simp [get_required_attestations, get_permit_type, oracle_get_required_threshold, h]

/-! ## Claim C8 — query loop on a broken connection -/

/--
**C8, counterexample.**  A connection break after one received event: the
claim says the call surfaces a typed connection error together with the
event already received; `NostrClient.query_events` instead catches the
exception and returns the empty list, discarding the event and surfacing
no error.
-/
theorem C8_query_break_cex :
    query_events [StreamItem.msg (RelayMsg.evt ⟨"id0", "pk0", 0, 3, [], ""⟩),
        StreamItem.disconnect] = [] ∧
      query_events_spec [StreamItem.msg (RelayMsg.evt ⟨"id0", "pk0", 0, 3, [], ""⟩),
        StreamItem.disconnect] = ([⟨"id0", "pk0", 0, 3, [], ""⟩], some ConnError.broken) ∧
      ([] : List NEvent) ≠ [⟨"id0", "pk0", 0, 3, [], ""⟩] := by
  decide

theorem query_events_loop_disconnect (post : List StreamItem) :
    ∀ (pre : List RelayMsg) (acc : List NEvent),
      (∀ m ∈ pre, m ≠ RelayMsg.eose ∧ m ≠ RelayMsg.closed) →
      query_events_loop (pre.map StreamItem.msg ++ StreamItem.disconnect :: post) acc =
        [] := by
  intro pre
  induction pre with
  | nil => intro acc _; simp [query_events_loop]
  | cons m rest ih =>
    intro acc hm
    have hm0 := hm m (List.mem_cons_self _ _)
    cases m with
    | evt e => simpa [query_events_loop] using ih _ (fun x hx => hm x (List.mem_cons_of_mem _ hx))
    | eose => exact absurd rfl hm0.1
    | closed => exact absurd rfl hm0.2
    | other => simpa [query_events_loop] using ih _ (fun x hx => hm x (List.mem_cons_of_mem _ hx))

theorem query_events_spec_loop_disconnect (post : List StreamItem) :
    ∀ (pre : List RelayMsg) (acc : List NEvent),
      (∀ m ∈ pre, m ≠ RelayMsg.eose ∧ m ≠ RelayMsg.closed) →
      query_events_spec_loop (pre.map StreamItem.msg ++ StreamItem.disconnect :: post) acc =
        (acc ++ eventsOf pre, some ConnError.broken) := by
  intro pre
  induction pre with
  | nil => intro acc _; simp [query_events_spec_loop, eventsOf]
  | cons m rest ih =>
    intro acc hm
    have hm0 := hm m (List.mem_cons_self _ _)
    cases m with
    | evt e =>
      have := ih (acc ++ [e]) (fun x hx => hm x (List.mem_cons_of_mem _ hx))
      simpa [query_events_spec_loop, eventsOf] using this
    | eose => exact absurd rfl hm0.1
    | closed => exact absurd rfl hm0.2
    | other =>
      have := ih acc (fun x hx => hm x (List.mem_cons_of_mem _ hx))
      simpa [query_events_spec_loop, eventsOf] using this

/--
**C8, amended.**  For every receive stream in which the connection breaks
(the iterator raises) before `EOSE`/`CLOSED`, `NostrClient.query_events`
catches the exception and returns the **empty list**, silently discarding
the partial results and surfacing no error — it does not implement the
best-effort contract, whose value (the events received so far plus a
typed connection error) is `query_events_spec`.
-/
theorem C8_query_break_amended (pre : List RelayMsg) (post : List StreamItem)
    (h : ∀ m ∈ pre, m ≠ RelayMsg.eose ∧ m ≠ RelayMsg.closed) :
    query_events (pre.map StreamItem.msg ++ StreamItem.disconnect :: post) = [] ∧
      query_events_spec (pre.map StreamItem.msg ++ StreamItem.disconnect :: post) =
        (eventsOf pre, some ConnError.broken) := by
  constructor
  · exact query_events_loop_disconnect post pre [] h
  · simpa [query_events_spec] using query_events_spec_loop_disconnect post pre [] h

/-- **C8, witness** for the amended theorem at a concrete stream. -/
theorem C8_query_break_witness :
    (∀ m ∈ [RelayMsg.evt ⟨"i1", "p1", 5, 0, [], ""⟩, RelayMsg.other],
        m ≠ RelayMsg.eose ∧ m ≠ RelayMsg.closed) ∧
      query_events [StreamItem.msg (RelayMsg.evt ⟨"i1", "p1", 5, 0, [], ""⟩),
        StreamItem.msg RelayMsg.other, StreamItem.disconnect] = [] ∧
      query_events_spec [StreamItem.msg (RelayMsg.evt ⟨"i1", "p1", 5, 0, [], ""⟩),
        StreamItem.msg RelayMsg.other, StreamItem.disconnect] =
        ([⟨"i1", "p1", 5, 0, [], ""⟩], some ConnError.broken) := by
  refine ⟨by decide, ?_, ?_⟩
  · exact (C8_query_break_amended [RelayMsg.evt ⟨"i1", "p1", 5, 0, [], ""⟩, RelayMsg.other]
      [] (by decide)).1
  · have h := (C8_query_break_amended [RelayMsg.evt ⟨"i1", "p1", 5, 0, [], ""⟩, RelayMsg.other]
      [] (by decide)).2
    simpa [eventsOf] using h

/-! ## Claim C9 — daemon reconnect loop -/

theorem listen_loop_budget (c : Nat) (as : List ConnAttempt) (h : 10 ≤ c) :
    listen_loop c as = ([], true) := by
  match as with
  | [] => simp [listen_loop, h]
  | ConnAttempt.fails :: rest => simp [listen_loop, h]
  | ConnAttempt.opensThenDrops :: rest => simp [listen_loop, h]

theorem listen_loop_nil (c : Nat) (h : ¬ 10 ≤ c) :
    listen_loop c [] = ([], false) := by
  simp [listen_loop, h]

theorem listen_loop_fails_step (c : Nat) (rest : List ConnAttempt) (h : ¬ 10 ≤ c) :
    listen_loop c (ConnAttempt.fails :: rest) =
      (5 * (c + 1) :: (listen_loop (c + 1) rest).1, (listen_loop (c + 1) rest).2) := by
  simp [listen_loop, h]

theorem listen_loop_drop_step (c : Nat) (rest : List ConnAttempt) (h : ¬ 10 ≤ c) :
    listen_loop c (ConnAttempt.opensThenDrops :: rest) =
      (5 :: (listen_loop 1 rest).1, (listen_loop 1 rest).2) := by
  simp [listen_loop, h]

theorem listen_loop_replicate_fails :
    ∀ (m c : Nat),
      listen_loop c (List.replicate m ConnAttempt.fails) =
        ((List.range (min m (10 - c))).map fun k => 5 * (c + k + 1),
          decide (10 ≤ c + m)) := by
  intro m
  induction m with
  | zero =>
    intro c
    by_cases h : 10 ≤ c
    · rw [listen_loop_budget c _ h]
      have h0 : min 0 (10 - c) = 0 := by omega
      rw [h0]
      simp only [List.range_zero, List.map_nil, Prod.mk.injEq, true_and]
      exact (decide_eq_true (by omega)).symm
    · rw [List.replicate_zero, listen_loop_nil c h]
      have h0 : min 0 (10 - c) = 0 := by omega
      rw [h0]
      simp only [List.range_zero, List.map_nil, Prod.mk.injEq, true_and]
      exact (decide_eq_false (by omega)).symm
  | succ m ih =>
    intro c
    by_cases h : 10 ≤ c
    · rw [listen_loop_budget c _ h]
      have h0 : min (m + 1) (10 - c) = 0 := by omega
      rw [h0]
      simp only [List.range_zero, List.map_nil, Prod.mk.injEq, true_and]
      exact (decide_eq_true (by omega)).symm
    · rw [List.replicate_succ, listen_loop_fails_step c _ h, ih (c + 1)]
      have hmin : min (m + 1) (10 - c) = min m (10 - (c + 1)) + 1 := by omega
      rw [hmin, List.range_succ_eq_map]
      dsimp only
      refine congrArg₂ Prod.mk ?_ ?_
      · simp only [List.map_cons, List.map_map]
        refine congrArg₂ List.cons (by omega) ?_
        apply List.map_congr_left
        intro k _
        simp only [Function.comp_apply]
        omega
      · have he : c + 1 + m = c + (m + 1) := by omega
        rw [he]

/--
**C9, counterexample.**  Ten consecutive connection failures exhaust the
retry budget with delays 5,10,…,50 seconds — but the daemon process then
exits with status 0, not the non-zero status (code 2, relay unreachable)
the claim requires: `listen_to_nostr` simply returns and `main()`
finishes normally.
-/
theorem C9_daemon_exit_cex :
    listen_loop 0 (List.replicate 10 ConnAttempt.fails) =
        ([5, 10, 15, 20, 25, 30, 35, 40, 45, 50], true) ∧
      daemon_exit_code = 0 ∧ daemon_exit_code ≠ 2 := by
  decide

/--
**C9, amended.**  In the daemon's reconnect loop the delay before the
next attempt after the k-th consecutive failure is `5·k` seconds, at most
10 consecutive retries are attempted (a script of `n` straight failures
produces exactly `min n 10` sleeps and exhausts the budget iff `n ≥ 10`),
and a successful open resets the counter (after an open-then-drop the
next delay is 5 s again, and a fresh budget of 9 further retries
remains); but after the budget is exhausted the daemon exits with status
**0**, not a non-zero status.
-/
theorem C9_daemon_backoff_amended :
    (∀ n : Nat, listen_loop 0 (List.replicate n ConnAttempt.fails) =
        ((List.range (min n 10)).map fun k => 5 * (k + 1), decide (10 ≤ n))) ∧
      (∀ c m : Nat, c < 10 →
        listen_loop c (ConnAttempt.opensThenDrops :: List.replicate m ConnAttempt.fails) =
          (5 :: (List.range (min m 9)).map fun k => 5 * (k + 2), decide (10 ≤ 1 + m))) ∧
      daemon_exit_code = 0 := by
  refine ⟨?_, ?_, rfl⟩
  · intro n
    have h := listen_loop_replicate_fails n 0
    simpa using h
  · intro c m hc
    have hnot : ¬ 10 ≤ c := by omega
    rw [listen_loop_drop_step c _ hnot, listen_loop_replicate_fails m 1]
    dsimp only
    refine congrArg₂ Prod.mk ?_ rfl
    refine congrArg₂ List.cons rfl ?_
    apply List.map_congr_left
    intro k _
    omega

/-- **C9, witness** for the amended theorem at concrete scripts. -/
theorem C9_daemon_backoff_witness :
    (3 : Nat) < 10 ∧
      listen_loop 0 (List.replicate 12 ConnAttempt.fails) =
        ([5, 10, 15, 20, 25, 30, 35, 40, 45, 50], true) ∧
      listen_loop 3 (ConnAttempt.opensThenDrops :: List.replicate 1 ConnAttempt.fails) =
        ([5, 10], false) := by
  refine ⟨by decide, ?_, ?_⟩
  · rw [C9_daemon_backoff_amended.1 12]
    decide
  · rw [C9_daemon_backoff_amended.2.1 3 1 (by decide)]
    decide

/-! ## Digit-string lemmas -/

theorem digitChar_toNat {d : Nat} (h : d < 10) : (digitChar d).toNat = 48 + d := by
  interval_cases d <;> decide

theorem isDigit_digitChar {d : Nat} (h : d < 10) : isDigit (digitChar d) = true := by
  interval_cases d <;> decide

theorem digitsVal_concat (l : List Char) (c : Char) :
    digitsVal (l ++ [c]) = 10 * digitsVal l + (c.toNat - 48) := by
  simp [digitsVal, List.foldl_append]

theorem natDigitsF_spec :
    ∀ (fuel n : Nat), n < fuel →
      digitsVal (natDigitsF fuel n) = n ∧ natDigitsF fuel n ≠ [] ∧
        ∀ c ∈ natDigitsF fuel n, isDigit c = true := by
  intro fuel
  induction fuel with
  | zero => intro n h; omega
  | succ fuel ih =>
    intro n h
    by_cases h10 : n < 10
    · refine ⟨?_, ?_, ?_⟩
      · simp [natDigitsF, h10, digitsVal, digitChar_toNat h10]
      · simp [natDigitsF, h10]
      · intro c hc
        simp [natDigitsF, h10] at hc
        subst hc
        exact isDigit_digitChar h10
    · have hdiv : n / 10 < n := Nat.div_lt_self (by omega) (by omega)
      have hfuel : n / 10 < fuel := by omega
      obtain ⟨hv, hne, hd⟩ := ih (n / 10) hfuel
      refine ⟨?_, ?_, ?_⟩
      · have hm : n % 10 < 10 := Nat.mod_lt _ (by omega)
        simp only [natDigitsF, h10, if_false]
        rw [digitsVal_concat, hv, digitChar_toNat hm]
        omega
      · simp [natDigitsF, h10]
      · intro c hc
        simp only [natDigitsF, h10, if_false, List.mem_append, List.mem_singleton] at hc
        rcases hc with hc | hc
        · exact hd c hc
        · subst hc
          exact isDigit_digitChar (Nat.mod_lt _ (by omega))

theorem digitsVal_natDigits (n : Nat) : digitsVal (natDigits n) = n :=
  (natDigitsF_spec (n + 1) n (by omega)).1

theorem natDigits_ne_nil (n : Nat) : natDigits n ≠ [] :=
  (natDigitsF_spec (n + 1) n (by omega)).2.1

theorem natDigits_all_digits (n : Nat) : ∀ c ∈ natDigits n, isDigit c = true :=
  (natDigitsF_spec (n + 1) n (by omega)).2.2

/-! ## Maximal-digit-suffix lemmas -/

theorem takeWhile_digits (ds : List Char) (c : Char) (rest : List Char)
    (hds : ∀ x ∈ ds, isDigit x = true) (hc : isDigit c = false) :
    (ds ++ c :: rest).takeWhile isDigit = ds ∧
      (ds ++ c :: rest).dropWhile isDigit = c :: rest := by
  induction ds with
  | nil => simp [List.takeWhile, List.dropWhile, hc]
  | cons d ds ih =>
    have hd : isDigit d = true := hds d (List.mem_cons_self _ _)
    have := ih fun x hx => hds x (List.mem_cons_of_mem _ hx)
    simp [List.takeWhile, List.dropWhile, hd, this.1, this.2]

theorem splitDigitSuffix_spec (r : List Char) (c : Char) (ds : List Char)
    (hc : isDigit c = false) (hds : ∀ x ∈ ds, isDigit x = true) :
    splitDigitSuffix (r ++ c :: ds) = (r ++ [c], ds) := by
  have hrev : (r ++ c :: ds).reverse = ds.reverse ++ c :: r.reverse := by
    simp
  have hds' : ∀ x ∈ ds.reverse, isDigit x = true := by
    intro x hx
    exact hds x (List.mem_reverse.1 hx)
  obtain ⟨htake, hdrop⟩ := takeWhile_digits ds.reverse c r.reverse hds' hc
  unfold splitDigitSuffix
  rw [hrev, htake, hdrop]
  simp

theorem isDigit_ne_X {c : Char} (h : isDigit c = true) : c ≠ 'X' := by
  intro hc
  subst hc
  exact absurd h (by decide)

theorem isDigit_ne_V {c : Char} (h : isDigit c = true) : c ≠ 'V' := by
  intro hc
  subst hc
  exact absurd h (by decide)

theorem suffix_pair {l : List Char} {a b c d : Char} :
    ([a, b] <:+ l ++ [c, d]) ↔ a = c ∧ b = d := by
  constructor
  · rintro ⟨t, ht⟩
    have h2 : [a, b] = [c, d] := (List.append_inj' ht rfl).2
    simpa using h2
  · rintro ⟨rfl, rfl⟩
    exact List.suffix_append l [a, b]

theorem getLast?_append_pair (l : List Char) (a b : Char) :
    (l ++ [a, b]).getLast? = some b := by
  have : l ++ [a, b] = (l ++ [a]) ++ [b] := by simp
  rw [this, List.getLast?_concat]

/-! ## Permit-id structure lemmas -/

theorem mk_append (a b : List Char) : (String.mk a) ++ (String.mk b) = String.mk (a ++ b) :=
  rfl

theorem extract_level_X (r ds : List Char) (hne : ds ≠ [])
    (hds : ∀ x ∈ ds, isDigit x = true) :
    extract_level ⟨r ++ '_' :: 'X' :: ds⟩ = digitsVal ds := by
  have hsplit : splitDigitSuffix (r ++ '_' :: 'X' :: ds) = (r ++ ['_', 'X'], ds) := by
    have : r ++ '_' :: 'X' :: ds = (r ++ ['_']) ++ 'X' :: ds := by simp
    rw [this, splitDigitSuffix_spec (r ++ ['_']) 'X' ds (by decide) hds]
    simp
  unfold extract_level
  rw [show (String.mk (r ++ '_' :: 'X' :: ds)).data = r ++ '_' :: 'X' :: ds from rfl,
    hsplit]
  rw [if_pos ⟨hne, List.suffix_append r ['_', 'X']⟩]

theorem extract_level_V (r ds : List Char) (hne : ds ≠ [])
    (hds : ∀ x ∈ ds, isDigit x = true) :
    extract_level ⟨r ++ '_' :: 'V' :: ds⟩ = digitsVal ds := by
  have hsplit : splitDigitSuffix (r ++ '_' :: 'V' :: ds) = (r ++ ['_', 'V'], ds) := by
    have : r ++ '_' :: 'V' :: ds = (r ++ ['_']) ++ 'V' :: ds := by simp
    rw [this, splitDigitSuffix_spec (r ++ ['_']) 'V' ds (by decide) hds]
    simp
  have hnotX : ¬ (['_', 'X'] <:+ r ++ ['_', 'V']) := by
    rw [suffix_pair]
    rintro ⟨-, h⟩
    exact absurd h (by decide)
  unfold extract_level
  rw [show (String.mk (r ++ '_' :: 'V' :: ds)).data = r ++ '_' :: 'V' :: ds from rfl,
    hsplit]
  rw [if_neg (fun hand => hnotX hand.2), if_pos ⟨hne, List.suffix_append r ['_', 'V']⟩]

theorem extract_base_name_X (r ds : List Char) (hne : ds ≠ [])
    (hds : ∀ x ∈ ds, isDigit x = true) :
    extract_base_name ⟨r ++ '_' :: 'X' :: ds⟩ = ⟨r⟩ := by
  have hsplit : splitDigitSuffix (r ++ '_' :: 'X' :: ds) = (r ++ ['_', 'X'], ds) := by
    have : r ++ '_' :: 'X' :: ds = (r ++ ['_']) ++ 'X' :: ds := by simp
    rw [this, splitDigitSuffix_spec (r ++ ['_']) 'X' ds (by decide) hds]
    simp
  unfold extract_base_name
  rw [show (String.mk (r ++ '_' :: 'X' :: ds)).data = r ++ '_' :: 'X' :: ds from rfl,
    hsplit]
  rw [if_pos ⟨hne, Or.inl (List.suffix_append r ['_', 'X'])⟩]
  have hlen : (r ++ ['_', 'X']).length - 2 = r.length := by simp
  rw [hlen]
  congr 1
  rw [show r ++ ['_', 'X'] = r ++ ['_', 'X'] from rfl]
  exact List.take_left r ['_', 'X']

/-- `get_next_level_id` on a string ending in `_X<digits>`. -/
theorem get_next_level_id_X (r ds : List Char) (hne : ds ≠ [])
    (hds : ∀ x ∈ ds, isDigit x = true) :
    get_next_level_id ⟨r ++ '_' :: 'X' :: ds⟩ =
      ⟨r ++ '_' :: 'X' :: natDigits (digitsVal ds + 1)⟩ := by
  unfold get_next_level_id
  rw [extract_base_name_X r ds hne hds, extract_level_X r ds hne hds]
  rw [show ("_X" : String) = String.mk ['_', 'X'] from rfl]
  rw [show natStr (digitsVal ds + 1) = String.mk (natDigits (digitsVal ds + 1)) from rfl]
  rw [mk_append, mk_append]
  simp

/-!
## Claim C2 — parent / next-level round trip
-/

/--
**C2, counterexample.**  `PERMIT_SAFETY_V2` is a valid permit id of
level 2, its parent is `PERMIT_SAFETY_X1` (as the claim's first half
says), but `NextLevelId(ParentId(p))` is `PERMIT_SAFETY_X2`, not the
original `PERMIT_SAFETY_V2`: progression always produces the `_X` form,
so the round trip fails on the official ids the claim explicitly
includes.
-/
theorem C2_round_trip_cex :
    is_valid_permit_id "PERMIT_SAFETY_V2" = true ∧
      extract_level "PERMIT_SAFETY_V2" = 2 ∧
      get_parent_id "PERMIT_SAFETY_V2" = some "PERMIT_SAFETY_X1" ∧
      get_next_level_id "PERMIT_SAFETY_X1" = "PERMIT_SAFETY_X2" ∧
      ("PERMIT_SAFETY_X2" : String) ≠ "PERMIT_SAFETY_V2" := by
  decide

/--
**C2, amended.**  For every valid permit id `p` with level ≥ 2,
`ParentId(p) = <base>_X<level−1>`; and the round trip
`NextLevelId(ParentId(p)) = p` holds for the ids that end in `_X`
followed by the canonical decimal digits of their level (in particular
for every community id `<base>_X<n>` written without leading zeros) —
but not for official `_V<n>` ids, whose parent is rewritten to the `_X`
form.
-/
theorem C2_parent_round_trip_amended (s : String)
    (hvalid : is_valid_permit_id s = true) (hlvl : 2 ≤ extract_level s) :
    get_parent_id s = some (extract_base_name s ++ "_X" ++ natStr (extract_level s - 1)) ∧
      (∀ r : List Char, s.data = r ++ '_' :: 'X' :: natDigits (extract_level s) →
        get_next_level_id (extract_base_name s ++ "_X" ++ natStr (extract_level s - 1)) =
          s) := by
  constructor
  · unfold get_parent_id
    rw [if_neg (by omega)]
  · intro r hr
    obtain ⟨l⟩ := s
    simp only [String.data] at hr
    generalize hn : extract_level (String.mk l) = n at hr hlvl ⊢
    subst hr
    have hbase : extract_base_name ⟨r ++ '_' :: 'X' :: natDigits n⟩ = ⟨r⟩ :=
      extract_base_name_X r _ (natDigits_ne_nil n) (natDigits_all_digits n)
    rw [hbase]
    rw [show ("_X" : String) = String.mk ['_', 'X'] from rfl]
    rw [show natStr (n - 1) = String.mk (natDigits (n - 1)) from rfl]
    rw [mk_append, mk_append]
    have hshape : r ++ ['_', 'X'] ++ natDigits (n - 1) =
        r ++ '_' :: 'X' :: natDigits (n - 1) := by simp
    rw [hshape]
    rw [get_next_level_id_X r _ (natDigits_ne_nil (n - 1)) (natDigits_all_digits (n - 1))]
    rw [digitsVal_natDigits]
    have harr : n - 1 + 1 = n := by omega
    rw [harr]

/-- **C2, witness** for the amended theorem at `PERMIT_MARAICHAGE_X2`. -/
theorem C2_parent_round_trip_witness :
    is_valid_permit_id "PERMIT_MARAICHAGE_X2" = true ∧
      2 ≤ extract_level "PERMIT_MARAICHAGE_X2" ∧
      get_next_level_id "PERMIT_MARAICHAGE_X1" = "PERMIT_MARAICHAGE_X2" := by
  refine ⟨by decide, by decide, ?_⟩
  have h := (C2_parent_round_trip_amended "PERMIT_MARAICHAGE_X2" (by decide) (by decide)).2
    "PERMIT_MARAICHAGE".data (by decide)
  have he : extract_base_name "PERMIT_MARAICHAGE_X2" ++ "_X" ++
      natStr (extract_level "PERMIT_MARAICHAGE_X2" - 1) = "PERMIT_MARAICHAGE_X1" := by
    decide
  rw [he] at h
  exact h

/-!
## Claim C10 — parent-permit derivation in the qualification check
-/

theorem oracle_extract_eq (s : String) : oracle_extract_permit_level s = extract_level s :=
  rfl

/-- The substitution pattern `_X<level>` cannot match a string whose
maximal digit suffix is preceded by `_V`. -/
theorem no_X_pattern_suffix (r ds : List Char) (n : Nat)
    (hds : ∀ x ∈ ds, isDigit x = true) :
    ¬ (('_' :: 'X' :: natDigits n) <:+ r ++ '_' :: 'V' :: ds) := by
  rintro ⟨t, ht⟩
  have h1 : splitDigitSuffix (t ++ '_' :: 'X' :: natDigits n) =
      (t ++ ['_', 'X'], natDigits n) := by
    have : t ++ '_' :: 'X' :: natDigits n = (t ++ ['_']) ++ 'X' :: natDigits n := by simp
    rw [this, splitDigitSuffix_spec (t ++ ['_']) 'X' (natDigits n) (by decide)
      (natDigits_all_digits n)]
    simp
  have h2 : splitDigitSuffix (r ++ '_' :: 'V' :: ds) = (r ++ ['_', 'V'], ds) := by
    have : r ++ '_' :: 'V' :: ds = (r ++ ['_']) ++ 'V' :: ds := by simp
    rw [this, splitDigitSuffix_spec (r ++ ['_']) 'V' ds (by decide) hds]
    simp
  rw [ht, h2] at h1
  rw [Prod.mk.injEq] at h1
  have hlast := congrArg List.getLast? h1.1
  rw [getLast?_append_pair, getLast?_append_pair] at hlast
  simp at hlast

/--
**C10 — confirmed.**  The Oracle Service's `_get_parent_permit` returns
its input unchanged whenever the extracted level is ≤ 1, and for every
id whose maximal digit suffix (of value ≥ 2) is preceded by `_V` — the
`re.sub(rf'_X{level}$', …)` substitution only targets an `_X` suffix.
Consequently the step-5 qualification check for such an official id
queries kind 30503 with `#permit_id` equal to that same id.
-/
theorem C10_parent_permit_official (s : String) :
    (oracle_extract_permit_level s ≤ 1 → oracle_get_parent_permit s = s) ∧
      (∀ r ds : List Char, ds ≠ [] → (∀ c ∈ ds, isDigit c = true) →
        2 ≤ digitsVal ds → s = ⟨r ++ '_' :: 'V' :: ds⟩ →
        oracle_get_parent_permit s = s ∧
          ∀ (relay : List NEvent) (oraclePk attestor : String),
            verify_attestor_qualification relay oraclePk attestor s =
              decide (0 < (queryEvents relay
                (qualificationFilter oraclePk attestor s)).length)) := by
  constructor
  · intro h
    unfold oracle_get_parent_permit
    rw [if_pos h]
  · intro r ds hne hds hval hs
    subst hs
    have hlevel : oracle_extract_permit_level ⟨r ++ '_' :: 'V' :: ds⟩ = digitsVal ds := by
      rw [oracle_extract_eq]
      exact extract_level_V r ds hne hds
    have hparent : oracle_get_parent_permit ⟨r ++ '_' :: 'V' :: ds⟩ =
        ⟨r ++ '_' :: 'V' :: ds⟩ := by
      unfold oracle_get_parent_permit
      rw [hlevel, if_neg (by omega)]
      rw [if_neg (no_X_pattern_suffix r ds (digitsVal ds) hds)]
    refine ⟨hparent, ?_⟩
    intro relay oraclePk attestor
    unfold verify_attestor_qualification
    rw [hlevel, if_neg (by omega), hparent]

/-! ## Claim C4 — reciprocal N1 and the N2 construction -/

theorem get_n1_mem (relay : List (String × List (List String))) (user : String)
    (hnd : (relay.map Prod.fst).Nodup) (f : String) :
    f ∈ get_n1_list relay user ↔
      f ∈ followsOf relay user ∧ user ∈ followsOf relay f := by
  unfold get_n1_list
  rcases h : alookup relay user with _ | tags
  · simp [followsOf, h]
  · simp only [followsOf, h]
    by_cases hf : (pTagValues tags).dedup = []
    · rw [hf]
      have hpt : pTagValues tags = [] := (List.dedup_eq_nil _).1 hf
      simp [hpt]
    · rw [if_neg hf]
      have hnd' : (((relay.filter fun p => ((pTagValues tags).dedup).contains p.1).map
          Prod.fst)).Nodup :=
        (List.Sublist.map Prod.fst (List.filter_sublist relay)).nodup hnd
      rw [List.mem_filter]
      constructor
      · rintro ⟨hmem, hpred⟩
        refine ⟨List.mem_dedup.1 hmem, ?_⟩
        rw [alookup_fold_upsert (fun t => (pTagValues t).dedup) _ _ _ hnd'] at hpred
        rw [alookup_filter_keys] at hpred
        rw [if_pos (by simpa using hmem)] at hpred
        rcases hfol : alookup relay f with _ | ft
        · rw [hfol] at hpred
          simp at hpred
        · rw [hfol] at hpred
          simp only [followsOf, hfol]
          have : user ∈ (pTagValues ft).dedup := by simpa using hpred
          exact List.mem_dedup.1 this
      · rintro ⟨hmem, huser⟩
        have hmem' : f ∈ (pTagValues tags).dedup := List.mem_dedup.2 hmem
        refine ⟨hmem', ?_⟩
        rw [alookup_fold_upsert (fun t => (pTagValues t).dedup) _ _ _ hnd']
        rw [alookup_filter_keys]
        rw [if_pos (by simpa using hmem')]
        rcases hfol : alookup relay f with _ | ft
        · rw [hfol] at huser
          simp [followsOf] at huser
        · rw [hfol] at huser
          simp only [followsOf] at huser
          simp only []
          have : user ∈ (pTagValues ft).dedup := List.mem_dedup.2 huser
          simpa using this

theorem get_n2_mem (relay : List (String × List (List String))) (user : String)
    (hnd : (relay.map Prod.fst).Nodup) (x : String) :
    x ∈ get_n2_list relay user ↔
      ((∃ g ∈ get_n1_list relay user, x ∈ followsOf relay g) ∧
        x ∉ get_n1_list relay user ∧ x ≠ user) := by
  unfold get_n2_list
  by_cases h1 : get_n1_list relay user = []
  · simp [h1]
  · rw [if_neg h1]
    rw [List.mem_dedup, mem_foldl_append]
    simp only [List.not_mem_nil, false_or]
    constructor
    · rintro ⟨p, hp, hx⟩
      rw [List.mem_filter] at hp hx
      obtain ⟨hprel, hpn1⟩ := hp
      obtain ⟨hxp, hcond⟩ := hx
      have hcond' : x ≠ user ∧ ¬ (get_n1_list relay user).contains x := by
        simpa using hcond
      refine ⟨⟨p.1, by simpa using hpn1, ?_⟩, by simpa using hcond'.2, hcond'.1⟩
      have := mem_alookup_of_nodup hnd hprel
      simp [followsOf, this, hxp]
    · rintro ⟨⟨g, hg, hxg⟩, hxnot, hxu⟩
      rcases halg : alookup relay g with _ | t
      · rw [show followsOf relay g = [] by simp [followsOf, halg]] at hxg
        simp at hxg
      · refine ⟨(g, t), ?_, ?_⟩
        · rw [List.mem_filter]
          exact ⟨alookup_some_mem halg, by simpa using hg⟩
        · rw [List.mem_filter]
          have : x ∈ pTagValues t := by
            have := hxg
            simp only [followsOf, halg] at this
            exact this
          exact ⟨this, by simpa using ⟨hxu, hxnot⟩⟩

/--
**C4, counterexample.**  The claim says `N2(user)` is the union of
`N1(f)` over `f ∈ N1(user)` (minus N1 and the user).  With `A` following
`B`, `B` following `A` and `E`, and `E` publishing no contact list:
`N1(A) = [B]`, the code's `N2(A)` is `[E]`, but the claimed union of
reciprocal neighbourhoods is empty (`E` is not a reciprocal follower of
`B`), so the two differ — the code unions the raw contact lists of the
N1 members.
-/
theorem C4_n2_union_cex :
    get_n1_list relayCex "A" = ["B"] ∧
      get_n2_list relayCex "A" = ["E"] ∧
      n2_claimed relayCex "A" = [] ∧
      (["E"] : List String) ≠ [] := by
  decide

/--
**C4, amended.**  Over any relay state (a map from author to latest
kind-3 contact list), `N1(user)` contains exactly the `f ∈ follows(user)`
with `user ∈ follows(f)` (as the claim states), and `N2(user)` equals the
union of **follows(f)** — the raw contact lists, not the reciprocal
`N1(f)` — over `f ∈ N1(user)`, minus `N1(user)` and minus `{user}`; in
particular N2 is disjoint from N1 and excludes the user.
-/
theorem C4_n1_n2_amended (relay : List (String × List (List String))) (user : String)
    (hnd : (relay.map Prod.fst).Nodup) :
    (∀ f, f ∈ get_n1_list relay user ↔
      f ∈ followsOf relay user ∧ user ∈ followsOf relay f) ∧
      (∀ x, x ∈ get_n2_list relay user ↔
        ((∃ g ∈ get_n1_list relay user, x ∈ followsOf relay g) ∧
          x ∉ get_n1_list relay user ∧ x ≠ user)) :=
  ⟨get_n1_mem relay user hnd, get_n2_mem relay user hnd⟩

/-- **C4, witness**: reciprocity instance on the concrete relay. -/
theorem C4_n1_n2_witness :
    (relayCex.map Prod.fst).Nodup ∧
      "B" ∈ get_n1_list relayCex "A" ∧ "E" ∈ get_n2_list relayCex "A" := by
  refine ⟨by decide, ?_, ?_⟩
  · exact ((C4_n1_n2_amended relayCex "A" (by decide)).1 "B").mpr (by decide)
  · exact ((C4_n1_n2_amended relayCex "A" (by decide)).2 "E").mpr
      ⟨⟨"B", by decide, by decide⟩, by decide, by decide⟩

/-! ## Round-half-even lemmas -/

theorem rhe_intCast (n : ℤ) : rhe (n : ℚ) = n := by
  have h0 : ((n : ℚ)) - (((⌊(n : ℚ)⌋ : ℤ)) : ℚ) = 0 := by
    rw [Int.floor_intCast]
    ring
  rw [rhe, h0, if_pos (by norm_num), Int.floor_intCast]

theorem rhe_lb (q : ℚ) : q - 1/2 ≤ (rhe q : ℚ) := by
  have h1 := Int.floor_le q
  have h2 := Int.lt_floor_add_one q
  rw [rhe]
  split_ifs with ha hb hc <;> push_cast <;> linarith

theorem rhe_ub (q : ℚ) : (rhe q : ℚ) ≤ q + 1/2 := by
  have h1 := Int.floor_le q
  have h2 := Int.lt_floor_add_one q
  rw [rhe]
  split_ifs with ha hb hc <;> push_cast <;> linarith

theorem rhe_ge (q : ℚ) (m : ℤ) (h : (m : ℚ) ≤ q) : m ≤ rhe q := by
  have hb := rhe_lb q
  have h2 : ((m - 1 : ℤ) : ℚ) < (rhe q : ℚ) := by push_cast; linarith
  have h3 : (m - 1 : ℤ) < rhe q := by exact_mod_cast h2
  omega

theorem rhe_le (q : ℚ) (m : ℤ) (h : q ≤ (m : ℚ)) : rhe q ≤ m := by
  have hb := rhe_ub q
  have h2 : (rhe q : ℚ) < ((m + 1 : ℤ) : ℚ) := by push_cast; linarith
  have h3 : rhe q < m + 1 := by exact_mod_cast h2
  omega

theorem rhe_add_compl (y : ℚ) : rhe y + rhe (1000 - y) = 1000 := by
  have h1 : ((⌊y⌋ : ℤ) : ℚ) ≤ y := Int.floor_le y
  have h2 : y < (⌊y⌋ : ℤ) + 1 := Int.lt_floor_add_one y
  by_cases hr0 : y = ((⌊y⌋ : ℤ) : ℚ)
  · have hy : rhe y = ⌊y⌋ := by
      conv_lhs => rw [hr0]
      rw [rhe_intCast]
    have hfl : (1000 : ℚ) - y = ((1000 - ⌊y⌋ : ℤ) : ℚ) := by
      push_cast
      linarith
    have hc : rhe (1000 - y) = 1000 - ⌊y⌋ := by
      rw [hfl, rhe_intCast]
    omega
  · have hlt : ((⌊y⌋ : ℤ) : ℚ) < y := lt_of_le_of_ne h1 (fun he => hr0 he.symm)
    have hfl2 : ⌊(1000 : ℚ) - y⌋ = 999 - ⌊y⌋ := by
      rw [Int.floor_eq_iff]
      constructor <;> push_cast <;> linarith
    rw [rhe, rhe, hfl2]
    by_cases hc1 : y - ((⌊y⌋ : ℤ) : ℚ) < 1/2
    · have hc2 : ¬ ((1000 : ℚ) - y - ((999 - ⌊y⌋ : ℤ) : ℚ) < 1/2) := by
        push_cast
        intro hx
        linarith
      have hc3 : (1/2 : ℚ) < 1000 - y - ((999 - ⌊y⌋ : ℤ) : ℚ) := by
        push_cast
        linarith
      rw [if_pos hc1, if_neg hc2, if_pos hc3]
      omega
    · by_cases hc4 : (1/2 : ℚ) < y - ((⌊y⌋ : ℤ) : ℚ)
      · have hc5 : (1000 : ℚ) - y - ((999 - ⌊y⌋ : ℤ) : ℚ) < 1/2 := by
          push_cast
          linarith
        rw [if_neg hc1, if_pos hc4, if_pos hc5]
        omega
      · have hr : y - ((⌊y⌋ : ℤ) : ℚ) = 1/2 := by
          push_neg at hc1 hc4
          linarith
        have hc5 : ¬ ((1000 : ℚ) - y - ((999 - ⌊y⌋ : ℤ) : ℚ) < 1/2) := by
          push_cast
          intro hx
          linarith
        have hc6 : ¬ ((1/2 : ℚ) < 1000 - y - ((999 - ⌊y⌋ : ℤ) : ℚ)) := by
          push_cast
          intro hx
          linarith
        rw [if_neg hc1, if_neg hc4, if_neg hc5, if_neg hc6]
        by_cases hpar : ⌊y⌋ % 2 = 0
        · have hodd : ¬ ((999 - ⌊y⌋) % 2 = 0) := by omega
          rw [if_pos hpar, if_neg hodd]
          omega
        · have heven : (999 - ⌊y⌋) % 2 = 0 := by omega
          rw [if_neg hpar, if_pos heven]
          omega

theorem round3_compl (x : ℚ) : round3 x + round3 (1 - x) = 1 := by
  have hc := rhe_add_compl (x * 1000)
  have h : (1 - x) * 1000 = 1000 - x * 1000 := by ring
  rw [round3, round3, h]
  have hcast : ((rhe (x * 1000) : ℤ) : ℚ) + ((rhe (1000 - x * 1000) : ℤ) : ℚ) = 1000 := by
    exact_mod_cast hc
  field_simp
  linarith

/-! ## Python string order -/

theorem charsLt_asymm : ∀ (a b : List Char), charsLt a b = true → charsLt b a = false := by
  intro a
  induction a with
  | nil =>
    intro b h
    cases b with
    | nil => simp [charsLt] at h
    | cons y ys => simp [charsLt]
  | cons x xs ih =>
    intro b h
    cases b with
    | nil => simp [charsLt] at h
    | cons y ys =>
      simp only [charsLt] at h ⊢
      by_cases h1 : x.toNat < y.toNat
      · rw [if_neg (by omega), if_pos h1]
      · by_cases h2 : y.toNat < x.toNat
        · rw [if_neg h1, if_pos h2] at h
          exact absurd h (by simp)
        · rw [if_neg h1, if_neg h2] at h
          rw [if_neg h2, if_neg h1]
          exact ih ys h

theorem char_eq_of_toNat_eq {x y : Char} (h : x.toNat = y.toNat) : x = y := by
  have hh : Char.ofNat x.toNat = Char.ofNat y.toNat := by rw [h]
  simpa [Char.ofNat_toNat] using hh

theorem charsLt_total : ∀ (a b : List Char), a ≠ b →
    charsLt a b = true ∨ charsLt b a = true := by
  intro a
  induction a with
  | nil =>
    intro b h
    cases b with
    | nil => exact absurd rfl h
    | cons y ys => left; simp [charsLt]
  | cons x xs ih =>
    intro b h
    cases b with
    | nil => right; simp [charsLt]
    | cons y ys =>
      simp only [charsLt]
      by_cases h1 : x.toNat < y.toNat
      · left
        rw [if_pos h1]
      · by_cases h2 : y.toNat < x.toNat
        · right
          rw [if_pos h2]
        · have hxy : x = y := char_eq_of_toNat_eq (by omega)
          subst hxy
          have hne : xs ≠ ys := fun he => h (by rw [he])
          rcases ih ys hne with hl | hl
          · left
            rw [if_neg h1, if_neg h2]
            exact hl
          · right
            rw [if_neg h1, if_neg h2]
            exact hl

theorem pyStrLt_asymm {a b : String} (h : pyStrLt a b = true) : pyStrLt b a = false :=
  charsLt_asymm a.data b.data h

theorem pyStrLt_irrefl (a : String) : pyStrLt a a = false := by
  rcases h : pyStrLt a a with _ | _
  · rfl
  · exact absurd (pyStrLt_asymm h) (by rw [h]; simp)

theorem pyStrLt_total {a b : String} (h : a ≠ b) :
    pyStrLt a b = true ∨ pyStrLt b a = true := by
  apply charsLt_total
  intro hd
  apply h
  obtain ⟨la⟩ := a
  obtain ⟨lb⟩ := b
  exact congrArg String.mk hd

theorem sortPair_sorted {a b : String} (h : a ≠ b) :
    pyStrLt (sortPair a b).1 (sortPair a b).2 = true := by
  unfold sortPair
  rcases hab : pyStrLt a b with _ | _
  · rcases pyStrLt_total h with h1 | h1
    · rw [hab] at h1
      exact absurd h1 (by simp)
    · simp [hab, h1]
  · simp [hab]

/-! ## Flow-table lemmas -/

theorem flowFind_bumpFlow_self (fl : List ((String × String) × ℚ × ℚ))
    (k : String × String) (isAB : Bool) (v : ℚ) :
    flowTotalOf (flowFind (bumpFlow fl k isAB v) k) =
      flowTotalOf (flowFind fl k) + v := by
  induction fl with
  | nil =>
    cases isAB <;> simp [bumpFlow, flowFind, flowTotalOf]
  | cons p rest ih =>
    obtain ⟨k', f⟩ := p
    by_cases hk : k' = k
    · subst hk
      cases isAB <;> simp [bumpFlow, flowFind, flowTotalOf] <;> ring
    · simp [bumpFlow, flowFind, hk, ih]

theorem flowFind_bumpFlow_ne (fl : List ((String × String) × ℚ × ℚ))
    (k k' : String × String) (isAB : Bool) (v : ℚ) (h : k' ≠ k) :
    flowFind (bumpFlow fl k isAB v) k' = flowFind fl k' := by
  induction fl with
  | nil => simp [bumpFlow, flowFind, Ne.symm h]
  | cons p rest ih =>
    obtain ⟨k0, f⟩ := p
    by_cases hk : k0 = k
    · subst hk
      simp [bumpFlow, flowFind, Ne.symm h]
    · simp [bumpFlow, flowFind, hk, ih]

theorem bumpFlow_keys (fl : List ((String × String) × ℚ × ℚ)) (k : String × String)
    (isAB : Bool) (v : ℚ) :
    ∀ k', k' ∈ (bumpFlow fl k isAB v).map Prod.fst →
      k' ∈ fl.map Prod.fst ∨ k' = k := by
  induction fl with
  | nil =>
    intro k' h
    right
    simpa [bumpFlow] using h
  | cons p rest ih =>
    obtain ⟨k0, f⟩ := p
    intro k' h
    by_cases hk : k0 = k
    · subst hk
      simp [bumpFlow] at h
      rcases h with h | h
      · left; simp [h]
      · left; simp [h]
    · simp [bumpFlow, hk] at h
      rcases h with h | h
      · left; simp [h]
      · rcases ih k' (by simpa using h) with h2 | h2
        · left
          simp at h2
          simp [h2]
        · right; exact h2

theorem bumpFlow_nodup (fl : List ((String × String) × ℚ × ℚ)) (k : String × String)
    (isAB : Bool) (v : ℚ) (h : (fl.map Prod.fst).Nodup) :
    ((bumpFlow fl k isAB v).map Prod.fst).Nodup := by
  induction fl with
  | nil => simp [bumpFlow]
  | cons p rest ih =>
    obtain ⟨k0, f⟩ := p
    simp only [List.map_cons, List.nodup_cons] at h
    by_cases hk : k0 = k
    · subst hk
      simp [bumpFlow, List.nodup_cons, h.1, h.2]
    · simp only [bumpFlow, if_neg hk, List.map_cons, List.nodup_cons]
      refine ⟨?_, ih h.2⟩
      intro hmem
      rcases bumpFlow_keys rest k isAB v k0 hmem with h2 | h2
      · exact h.1 h2
      · exact hk h2

/-- **C10, witness** at `PERMIT_SAFETY_V2` over a one-credential relay. -/
theorem C10_parent_permit_official_witness :
    oracle_get_parent_permit "PERMIT_SAFETY_V2" = "PERMIT_SAFETY_V2" ∧
      verify_attestor_qualification
        [⟨"c1", "opk", 0, 30503, [["p", "att"], ["permit_id", "PERMIT_SAFETY_V2"]], ""⟩]
        "opk" "att" "PERMIT_SAFETY_V2" =
        decide (0 < (queryEvents
          [⟨"c1", "opk", 0, 30503, [["p", "att"], ["permit_id", "PERMIT_SAFETY_V2"]], ""⟩]
          (qualificationFilter "opk" "att" "PERMIT_SAFETY_V2")).length) := by
  have h := (C10_parent_permit_official "PERMIT_SAFETY_V2").2
    "PERMIT_SAFETY".data ['2'] (by decide) (by decide) (by decide) (by decide)
  exact ⟨h.1, h.2 _ "opk" "att"⟩

/-! ## Claim C5 — inter-market rate matrix -/

theorem flowFind_none_of_not_mem (fl : List ((String × String) × ℚ × ℚ))
    (k : String × String) (h : k ∉ fl.map Prod.fst) : flowFind fl k = none := by
  induction fl with
  | nil => simp [flowFind]
  | cons p rest ih =>
    obtain ⟨k0, f⟩ := p
    simp only [List.map_cons, List.mem_cons] at h
    push_neg at h
    simp [flowFind, Ne.symm h.1, ih h.2]

theorem buildFlows_go_inv (cs : List CircuitFlow) :
    ∀ acc : List ((String × String) × ℚ × ℚ),
      (acc.map Prod.fst).Nodup → (∀ k ∈ acc.map Prod.fst, pyStrLt k.1 k.2 = true) →
      ((cs.foldl buildFlowsStep acc).map Prod.fst).Nodup ∧
        (∀ k ∈ (cs.foldl buildFlowsStep acc).map Prod.fst, pyStrLt k.1 k.2 = true) := by
  induction cs with
  | nil => intro acc h1 h2; exact ⟨h1, h2⟩
  | cons c rest ih =>
    intro acc h1 h2
    rw [List.foldl_cons]
    by_cases hc : c.dest_market_id ≠ "" ∧ c.dest_market_id ≠ c.market_id
    · have hstep : buildFlowsStep acc c =
          bumpFlow acc (sortPair c.market_id c.dest_market_id)
            (pyStrLt c.market_id c.dest_market_id) c.value_zen := by
        simp [buildFlowsStep, hc]
      rw [hstep]
      apply ih
      · exact bumpFlow_nodup _ _ _ _ h1
      · intro k hk
        rcases bumpFlow_keys _ _ _ _ k hk with h | h
        · exact h2 k h
        · subst h
          exact sortPair_sorted (Ne.symm hc.2)
    · have hstep : buildFlowsStep acc c = acc := by
        simp only [buildFlowsStep, if_neg hc]
      rw [hstep]
      exact ih acc h1 h2

theorem buildFlows_go_total (cs : List CircuitFlow) :
    ∀ (acc : List ((String × String) × ℚ × ℚ)) (k : String × String),
      flowTotalOf (flowFind (cs.foldl buildFlowsStep acc) k) =
        flowTotalOf (flowFind acc k) + pairTotal cs k := by
  induction cs with
  | nil => intro acc k; simp [pairTotal]
  | cons c rest ih =>
    intro acc k
    rw [List.foldl_cons, ih]
    have hpt : pairTotal (c :: rest) k =
        (if c.dest_market_id ≠ "" ∧ c.dest_market_id ≠ c.market_id ∧
            sortPair c.market_id c.dest_market_id = k then c.value_zen else 0) +
          pairTotal rest k := by
      simp [pairTotal]
    rw [hpt]
    by_cases hc : c.dest_market_id ≠ "" ∧ c.dest_market_id ≠ c.market_id
    · have hstep : buildFlowsStep acc c =
          bumpFlow acc (sortPair c.market_id c.dest_market_id)
            (pyStrLt c.market_id c.dest_market_id) c.value_zen := by
        simp [buildFlowsStep, hc]
      rw [hstep]
      by_cases hk : sortPair c.market_id c.dest_market_id = k
      · rw [hk, flowFind_bumpFlow_self, if_pos ⟨hc.1, hc.2, rfl⟩]
        ring
      · rw [flowFind_bumpFlow_ne _ _ _ _ _ (Ne.symm hk),
          if_neg (fun hand => hk hand.2.2)]
        ring
    · have hstep : buildFlowsStep acc c = acc := by
        simp only [buildFlowsStep, if_neg hc]
      rw [hstep, if_neg (fun hand => hc ⟨hand.1, hand.2.1⟩)]
      ring

theorem ratesLookup_append (l1 l2 : List ((String × String) × ℚ)) (a b : String) :
    ratesLookup (l1 ++ l2) a b =
      (match ratesLookup l1 a b with
       | some v => some v
       | none => ratesLookup l2 a b) := by
  induction l1 with
  | nil => simp [ratesLookup]
  | cons p rest ih =>
    obtain ⟨k, v⟩ := p
    by_cases hk : k = (a, b) <;> simp [ratesLookup, hk, ih]

theorem rates_go_lookup (m1 m2 : String) (h12 : pyStrLt m1 m2 = true) :
    ∀ (flows : List ((String × String) × ℚ × ℚ))
      (acc : List ((String × String) × ℚ)),
      (flows.map Prod.fst).Nodup →
      (∀ k ∈ flows.map Prod.fst, pyStrLt k.1 k.2 = true) →
      (ratesLookup (flows.foldl ratesStep acc) m1 m2 =
        (match ratesLookup acc m1 m2 with
         | some v => some v
         | none =>
           match flowFind flows (m1, m2) with
           | some f => if 0 < f.1 + f.2 then some (round3 (f.1 / (f.1 + f.2))) else none
           | none => none)) ∧
      (ratesLookup (flows.foldl ratesStep acc) m2 m1 =
        (match ratesLookup acc m2 m1 with
         | some v => some v
         | none =>
           match flowFind flows (m1, m2) with
           | some f =>
             if 0 < f.1 + f.2 then some (round3 (1 - f.1 / (f.1 + f.2))) else none
           | none => none)) := by
  have hne : m1 ≠ m2 := by
    intro he
    rw [he, pyStrLt_irrefl] at h12
    simp at h12
  intro flows
  induction flows with
  | nil =>
    intro acc _ _
    constructor
    · rcases h : ratesLookup acc m1 m2 with _ | v <;> simp [flowFind, h]
    · rcases h : ratesLookup acc m2 m1 with _ | v <;> simp [flowFind, h]
  | cons p rest ih =>
    intro acc hnd hsort
    obtain ⟨k, f⟩ := p
    simp only [List.map_cons, List.nodup_cons] at hnd
    have hsk : pyStrLt k.1 k.2 = true := hsort k (by simp)
    have hsort' : ∀ k' ∈ rest.map Prod.fst, pyStrLt k'.1 k'.2 = true :=
      fun k' hk' => hsort k' (by simp [hk'])
    have hke2 : (k.2, k.1) ≠ (m1, m2) := by
      intro he
      rw [Prod.mk.injEq] at he
      have : pyStrLt m2 m1 = true := by
        rw [← he.1, ← he.2]
        exact hsk
      rw [pyStrLt_asymm h12] at this
      simp at this
    have hke3 : k ≠ (m2, m1) := by
      intro he
      have h' : pyStrLt m2 m1 = true := by
        have hx := hsk
        rw [he] at hx
        simpa using hx
      rw [pyStrLt_asymm h12] at h'
      simp at h'
    rw [List.foldl_cons]
    by_cases hpos : 0 < f.1 + f.2
    · have hstep : ratesStep acc (k, f) =
          acc ++ [((k.1, k.2), round3 (f.1 / (f.1 + f.2))),
                  ((k.2, k.1), round3 (1 - f.1 / (f.1 + f.2)))] := by
        simp only [ratesStep]
        rw [if_pos hpos, if_pos hsk]
      rw [hstep]
      obtain ⟨ih1, ih2⟩ := ih (acc ++ [((k.1, k.2), round3 (f.1 / (f.1 + f.2))),
        ((k.2, k.1), round3 (1 - f.1 / (f.1 + f.2)))]) hnd.2 hsort'
      constructor
      · rw [ih1, ratesLookup_append]
        by_cases hkm : k = (m1, m2)
        · have hk12 : (k.1, k.2) = (m1, m2) := by rw [← hkm]
          have hrest : flowFind rest (m1, m2) = none :=
            flowFind_none_of_not_mem rest _ (hkm ▸ hnd.1)
          rcases hacc : ratesLookup acc m1 m2 with _ | v <;>
            simp [flowFind, hkm, hk12, hke2, hrest, ratesLookup, hpos, hne, Ne.symm hne]
        · have hk12 : (k.1, k.2) ≠ (m1, m2) := by
            intro he
            exact hkm (by rw [← he])
          rcases hacc : ratesLookup acc m1 m2 with _ | v <;>
            simp [flowFind, hkm, hk12, hke2, ratesLookup, hne, Ne.symm hne]
      · rw [ih2, ratesLookup_append]
        by_cases hkm : k = (m1, m2)
        · have hk21 : (k.2, k.1) = (m2, m1) := by rw [hkm]
          have hk12 : (k.1, k.2) ≠ (m2, m1) := by
            intro he
            exact hke3 (by rw [← he])
          have hrest : flowFind rest (m1, m2) = none :=
            flowFind_none_of_not_mem rest _ (hkm ▸ hnd.1)
          rcases hacc : ratesLookup acc m2 m1 with _ | v <;>
            simp [flowFind, hkm, hk21, hk12, hrest, ratesLookup, hpos, hne, Ne.symm hne]
        · have hk12 : (k.1, k.2) ≠ (m2, m1) := by
            intro he
            exact hke3 (by rw [← he])
          have hk21 : (k.2, k.1) ≠ (m2, m1) := by
            intro he
            rw [Prod.mk.injEq] at he
            exact hkm (by rw [Prod.mk.injEq]; exact ⟨he.2, he.1⟩)
          rcases hacc : ratesLookup acc m2 m1 with _ | v <;>
            simp [flowFind, hkm, hk21, hk12, ratesLookup, hne, Ne.symm hne]
    · have hstep : ratesStep acc (k, f) = acc := by
        simp only [ratesStep]
        rw [if_neg hpos]
      rw [hstep]
      obtain ⟨ih1, ih2⟩ := ih acc hnd.2 hsort'
      constructor
      · rw [ih1]
        by_cases hkm : k = (m1, m2)
        · have hrest : flowFind rest (m1, m2) = none :=
            flowFind_none_of_not_mem rest _ (hkm ▸ hnd.1)
          rcases hacc : ratesLookup acc m1 m2 with _ | v <;>
            simp [flowFind, hkm, hrest, hpos]
        · rcases hacc : ratesLookup acc m1 m2 with _ | v <;> simp [flowFind, hkm]
      · rw [ih2]
        by_cases hkm : k = (m1, m2)
        · have hrest : flowFind rest (m1, m2) = none :=
            flowFind_none_of_not_mem rest _ (hkm ▸ hnd.1)
          rcases hacc : ratesLookup acc m2 m1 with _ | v <;>
            simp [flowFind, hkm, hrest, hpos]
        · rcases hacc : ratesLookup acc m2 m1 with _ | v <;> simp [flowFind, hkm]

/--
**C5, counterexample.**  A single cross-market circuit with value −1
yields a pair with non-zero total cross-flow (−1), yet the rate matrix
contains no entry for the pair in either direction: the source only
populates pairs with strictly **positive** total
(`if total > 0`), so the claim's "non-zero total ⇒ both entries present"
fails on negative flow values.
-/
theorem C5_intermarket_rates_cex :
    pairTotal [⟨"a", "b", -1⟩] ("a", "b") = -1 ∧ ((-1 : ℚ) ≠ 0) ∧
      ratesLookup (calculate_intermarket_rates [⟨"a", "b", -1⟩]) "a" "b" = none ∧
      ratesLookup (calculate_intermarket_rates [⟨"a", "b", -1⟩]) "b" "a" = none := by
  have h1 : pyStrLt "a" "b" = true := by decide
  have h3 : ("b" : String) ≠ "" := by decide
  have h4 : ("b" : String) ≠ "a" := by decide
  refine ⟨?_, by norm_num, ?_, ?_⟩
  · norm_num [pairTotal, sortPair, h1, h3, h4]
  · norm_num [calculate_intermarket_rates, buildFlows, buildFlowsStep, bumpFlow,
      ratesStep, ratesLookup, sortPair, h1, h3, h4]
  · norm_num [calculate_intermarket_rates, buildFlows, buildFlowsStep, bumpFlow,
      ratesStep, ratesLookup, sortPair, h1, h3, h4]

/--
**C5, amended.**  For every list of parsed 30-day circuits and every
market pair `m1 < m2` (Python string order): if the total cross-flow of
the pair is **positive**, the rate matrix holds both directed entries and
they sum to 1 within 10⁻⁶ (in exact arithmetic the two half-even
roundings of `rate` and `1 − rate` at 3 decimals sum to exactly 1); if
the total is non-positive — zero, as the claim says, or negative — the
matrix holds no entry for the pair in either direction.  Under
non-negative circuit values "positive" and "non-zero" coincide and the
claim's reading is recovered.
-/
theorem C5_intermarket_rates_amended (cs : List CircuitFlow) (m1 m2 : String)
    (h12 : pyStrLt m1 m2 = true) :
    (0 < pairTotal cs (m1, m2) →
      ∃ r s, ratesLookup (calculate_intermarket_rates cs) m1 m2 = some r ∧
        ratesLookup (calculate_intermarket_rates cs) m2 m1 = some s ∧
        |r + s - 1| ≤ 1/1000000) ∧
      (pairTotal cs (m1, m2) ≤ 0 →
        ratesLookup (calculate_intermarket_rates cs) m1 m2 = none ∧
        ratesLookup (calculate_intermarket_rates cs) m2 m1 = none) := by
  have hinv := buildFlows_go_inv cs [] (by simp) (by simp)
  have htot := buildFlows_go_total cs [] (m1, m2)
  rw [show flowTotalOf (flowFind [] (m1, m2)) = 0 from rfl, zero_add] at htot
  obtain ⟨hl1, hl2⟩ := rates_go_lookup m1 m2 h12 (cs.foldl buildFlowsStep []) []
    hinv.1 hinv.2
  have hcir : calculate_intermarket_rates cs =
      (cs.foldl buildFlowsStep []).foldl ratesStep [] := rfl
  constructor
  · intro hpos
    rcases hff : flowFind (cs.foldl buildFlowsStep []) (m1, m2) with _ | f
    · rw [hff] at htot
      rw [show flowTotalOf none = 0 from rfl] at htot
      rw [← htot] at hpos
      norm_num at hpos
    · rw [hff] at htot hl1 hl2
      have hftot : f.1 + f.2 = pairTotal cs (m1, m2) := by
        simpa [flowTotalOf] using htot
      have hfpos : 0 < f.1 + f.2 := by rw [hftot]; exact hpos
      refine ⟨round3 (f.1 / (f.1 + f.2)), round3 (1 - f.1 / (f.1 + f.2)), ?_, ?_, ?_⟩
      · rw [hcir, hl1]
        simp [ratesLookup, hfpos]
      · rw [hcir, hl2]
        simp [ratesLookup, hfpos]
      · rw [round3_compl]
        norm_num
  · intro hz
    rcases hff : flowFind (cs.foldl buildFlowsStep []) (m1, m2) with _ | f
    · rw [hff] at hl1 hl2
      constructor
      · rw [hcir, hl1]
        simp [ratesLookup]
      · rw [hcir, hl2]
        simp [ratesLookup]
    · rw [hff] at htot hl1 hl2
      have hftot : f.1 + f.2 = pairTotal cs (m1, m2) := by
        simpa [flowTotalOf] using htot
      have hneg : ¬ 0 < f.1 + f.2 := by
        rw [hftot]
        exact not_lt.2 hz
      constructor
      · rw [hcir, hl1]
        simp [ratesLookup, hneg]
      · rw [hcir, hl2]
        simp [ratesLookup, hneg]

/-- **C5, witness**: flows 30 and 10 between markets `a` and `b`. -/
theorem C5_intermarket_rates_witness :
    pyStrLt "a" "b" = true ∧
      0 < pairTotal [⟨"a", "b", 30⟩, ⟨"b", "a", 10⟩] ("a", "b") ∧
      (∃ r s,
        ratesLookup (calculate_intermarket_rates [⟨"a", "b", 30⟩, ⟨"b", "a", 10⟩])
          "a" "b" = some r ∧
        ratesLookup (calculate_intermarket_rates [⟨"a", "b", 30⟩, ⟨"b", "a", 10⟩])
          "b" "a" = some s ∧
        |r + s - 1| ≤ 1/1000000) := by
  have h1 : pyStrLt "a" "b" = true := by decide
  have h2 : pyStrLt "b" "a" = false := by decide
  have h3 : ("b" : String) ≠ "" := by decide
  have h4 : ("b" : String) ≠ "a" := by decide
  have h5 : ("a" : String) ≠ "" := by decide
  have h6 : ("a" : String) ≠ "b" := by decide
  have hpos : 0 < pairTotal [⟨"a", "b", 30⟩, ⟨"b", "a", 10⟩] ("a", "b") := by
    norm_num [pairTotal, sortPair, h1, h2, h3, h4, h5, h6]
  exact ⟨h1, hpos,
    (C5_intermarket_rates_amended [⟨"a", "b", 30⟩, ⟨"b", "a", 10⟩] "a" "b" h1).1 hpos⟩

/-! ## Claim C6 — parameter ranges and defaulting branches -/

theorem round4_range {q : ℚ} (h1 : 0.02 ≤ q) (h2 : q ≤ 0.25) :
    0.02 ≤ round4 q ∧ round4 q ≤ 0.25 := by
  have hge : (200 : ℤ) ≤ rhe (q * 10000) := by
    apply rhe_ge
    push_cast
    nlinarith
  have hle : rhe (q * 10000) ≤ (2500 : ℤ) := by
    apply rhe_le
    push_cast
    nlinarith
  have hge' : (200 : ℚ) ≤ (rhe (q * 10000) : ℚ) := by exact_mod_cast hge
  have hle' : ((rhe (q * 10000) : ℤ) : ℚ) ≤ 2500 := by exact_mod_cast hle
  rw [round4]
  constructor <;> [linarith; linarith]

theorem round3_range01 {q : ℚ} (h1 : 0 ≤ q) (h2 : q ≤ 1) :
    0 ≤ round3 q ∧ round3 q ≤ 1 := by
  have hge : (0 : ℤ) ≤ rhe (q * 1000) := by
    apply rhe_ge
    push_cast
    nlinarith
  have hle : rhe (q * 1000) ≤ (1000 : ℤ) := by
    apply rhe_le
    push_cast
    nlinarith
  have hge' : (0 : ℚ) ≤ (rhe (q * 1000) : ℚ) := by exact_mod_cast hge
  have hle' : ((rhe (q * 1000) : ℤ) : ℚ) ≤ 1000 := by exact_mod_cast hle
  rw [round3]
  constructor <;> [linarith; linarith]

/--
**C6, counterexample.**  The claim places the TTL computation's
defaulting branch at "medianReturn = 0 or medianTTL = 0"; but
`calculate_ttl_optimal` never looks at the median TTL.  With one closed
circuit of age 10 days and one emitted TTL of 0 days, `medianTTL = 0`
yet the suggested TTL is `round(10 · 1.5) = 15`, not the default 28.
-/
theorem C6_ttl_branch_cex :
    medianReturn [⟨10, ""⟩] = 10 ∧ medianTtl [0] = 0 ∧
      calculate_ttl_optimal [⟨10, ""⟩] = 15 ∧ (15 : ℤ) ≠ 28 := by
  have hmr : medianReturn [⟨10, ""⟩] = 10 := by
    norm_num [medianReturn, pymedian, List.insertionSort, List.orderedInsert]
  refine ⟨hmr, ?_, ?_, by norm_num⟩
  · norm_num [medianTtl, pymedian, List.insertionSort, List.orderedInsert, TTL_DEFAULT]
  · rw [calculate_ttl_optimal, hmr]
    norm_num [rhe]

/--
**C6, amended.**  For every input (and any square-root implementation
inside the Pearson correlation): C² lies in [0.02, 0.25], α in [0, 1]
and the optimal TTL in [7, 365]; C² falls back to 0.07 when
`medianReturn = 0` or `medianTTL = 0`; the TTL falls back to 28 when
`medianReturn = 0` (its branch tests the median return only); and α
falls back to 0.3 below 5 skill-certified circuits.  All fallback values
lie inside the ranges.
-/
theorem C6_params_ranges_amended (sqrtFn : ℚ → ℚ) (loops : List Loop)
    (emitted_ttls : List ℚ) (expired_count prev_loops_count : Nat)
    (skill_loops : List Loop) :
    (0.02 ≤ calculate_c2 loops emitted_ttls expired_count prev_loops_count ∧
      calculate_c2 loops emitted_ttls expired_count prev_loops_count ≤ 0.25) ∧
      (0 ≤ calculate_alpha sqrtFn skill_loops ∧ calculate_alpha sqrtFn skill_loops ≤ 1) ∧
      ((7 : ℤ) ≤ calculate_ttl_optimal loops ∧ calculate_ttl_optimal loops ≤ 365) ∧
      ((medianReturn loops = 0 ∨ medianTtl emitted_ttls = 0) →
        calculate_c2 loops emitted_ttls expired_count prev_loops_count = 0.07) ∧
      (medianReturn loops = 0 → calculate_ttl_optimal loops = 28) ∧
      (skill_loops.length < 5 → calculate_alpha sqrtFn skill_loops = 0.3) := by
  have hr007 : round4 0.07 = 0.07 := by
    have h700 : (0.07 : ℚ) * 10000 = ((700 : ℤ) : ℚ) := by norm_num
    rw [round4, h700, rhe_intCast]
    norm_num
  refine ⟨?_, ?_, ?_, ?_, ?_, ?_⟩
  · simp only [calculate_c2]
    by_cases hcond : 0 < medianReturn loops ∧ 0 < medianTtl emitted_ttls
    · rw [if_pos hcond]
      exact round4_range (le_max_left _ _) (max_le (by norm_num) (min_le_right _ _))
    · rw [if_neg hcond]
      exact round4_range (by norm_num) (by norm_num)
  · simp only [calculate_alpha]
    by_cases h5 : skill_loops.length < 5
    · rw [if_pos h5]
      norm_num
    · rw [if_neg h5]
      rw [if_pos (by simp; omega)]
      exact round3_range01 (le_max_left _ _) (max_le (by norm_num) (min_le_right _ _))
  · simp only [calculate_ttl_optimal]
    by_cases hpos : 0 < medianReturn loops
    · rw [if_pos hpos]
      constructor
      · exact le_max_left _ _
      · exact max_le (by norm_num) (min_le_right _ _)
    · rw [if_neg hpos]
      norm_num
  · intro hdef
    simp only [calculate_c2]
    rw [if_neg ?_, hr007]
    rintro ⟨hmr, hmt⟩
    rcases hdef with h | h
    · rw [h] at hmr
      exact absurd hmr (by norm_num)
    · rw [h] at hmt
      exact absurd hmt (by norm_num)
  · intro hz
    simp only [calculate_ttl_optimal]
    rw [if_neg (by rw [hz]; norm_num)]
  · intro h5
    simp only [calculate_alpha]
    rw [if_pos h5]

/-- **C6, witness** at concrete empty inputs (all defaulting branches). -/
theorem C6_params_ranges_witness :
    medianReturn [] = 0 ∧
      calculate_c2 [] [] 0 0 = 0.07 ∧
      calculate_ttl_optimal [] = 28 ∧
      calculate_alpha (fun _ => 0) [] = 0.3 ∧
      (0.02 : ℚ) ≤ calculate_c2 [] [] 0 0 := by
  have h := C6_params_ranges_amended (fun _ => 0) [] [] 0 0 []
  have hmr : medianReturn ([] : List Loop) = 0 := rfl
  refine ⟨hmr, h.2.2.2.1 (Or.inl hmr), h.2.2.2.2.1 hmr,
    h.2.2.2.2.2 (by norm_num), ?_⟩
  rw [h.2.2.2.1 (Or.inl hmr)]
  norm_num

/-! ## Claim C1 — idempotence of attestation processing -/

set_option maxRecDepth 100000 in
/--
**C1, code bug.**  The idempotence check of step 1 queries kind 30503
with `#e = [request_id]`, where `request_id` is the reference carried by
the attestation — here the `d` value `req1` of the kind-30501 request.
The credential issued by `_issue_credential`, however, carries the
**event id** of the resolved request (`5c9a1de0`) in its `e` tag.  So
when the request is resolved through the `#d` fallback, reprocessing the
very same attestation does not find the existing credential and
publishes a second one: below, both runs publish, the two credentials
agree on issuer (`pubkey`), holder (`p` tag) and request (`e` tag) —
the (issuer, holder, request-id) triple the claim protects — yet are
distinct events, contradicting "at most one credential per triple".
-/
theorem C1_idempotence_code_bug :
    process_attestation oracleRelay0 attEvent0 "oraclepk" 1000 = some oracleCred1 ∧
      process_attestation (oracleCred1 :: oracleRelay0) attEvent0 "oraclepk" 2000 =
        some oracleCred2 ∧
      oracleCred1.kind = 30503 ∧ oracleCred2.kind = 30503 ∧
      oracleCred1.pubkey = oracleCred2.pubkey ∧
      alookup (tagsToMap oracleCred1.tags) "e" =
        alookup (tagsToMap oracleCred2.tags) "e" ∧
      alookup (tagsToMap oracleCred1.tags) "p" =
        alookup (tagsToMap oracleCred2.tags) "p" ∧
      oracleCred1 ≠ oracleCred2 ∧
      alookup (tagsToMap oracleCred1.tags) "e" = some "5c9a1de0" ∧
      ("5c9a1de0" : String) ≠ "req1" := by
  decide

end TrocZen
